import Mathlib

/-!
Verification of the trade-craft core: the indicator computation engine
(`calculateEMA`, `calculateMACD`, `calculateRSI`), the crossover event
detector, the chart-action validator and the command execution engine,
shallowly embedded from the TypeScript sources.  JavaScript numbers are
modelled as exact rationals (`ℚ`) and `(number | null)[]` series as
`List (Option ℚ)`.
-/

namespace TradeCraft

/-- JS coercion of a possibly-`null` number used in arithmetic: `null`
behaves as `0`.  (In `calculateEMA` this is reachable only when
`period = 0`; it is kept for faithfulness to the runtime semantics of
`(data[i] - ema!) * multiplier + ema!`.) -/
def jsCoe (o : Option ℚ) : ℚ := o.getD 0

/-- The loop of `calculateEMA` from iteration `i` on; `ema` is the running
`ema` variable of the source (`null` until seeded).  `fuel` is the number of
remaining iterations (the loop is always entered with `fuel = data.length - i`,
so the guard `i < data.length` of the source is preserved exactly).  Branch
conditions compare over `ℤ` because the source compares `i` with
`period - 1` on JS numbers. -/
def emaFrom (data : List ℚ) (period : ℕ) : ℕ → ℕ → Option ℚ → List (Option ℚ)
  | 0, _, _ => []
  | fuel + 1, i, ema =>
    if h : i < data.length then
      if (i : ℤ) < (period : ℤ) - 1 then
        none :: emaFrom data period fuel (i + 1) ema
      else if (i : ℤ) = (period : ℤ) - 1 then
        some ((data.take period).sum / period) ::
          emaFrom data period fuel (i + 1) (some ((data.take period).sum / period))
      else
        some ((data.get ⟨i, h⟩ - jsCoe ema) * (2 / ((period : ℚ) + 1)) + jsCoe ema) ::
          emaFrom data period fuel (i + 1)
            (some ((data.get ⟨i, h⟩ - jsCoe ema) * (2 / ((period : ℚ) + 1)) + jsCoe ema))
    else []

/-- `calculateEMA` from the source: output `null` below index `period - 1`,
an SMA seed (`data.slice(0, period).reduce(...) / period`) at index
`period - 1`, then `ema[i] = (data[i] - ema[i-1]) * (2/(period+1)) + ema[i-1]`. -/
def calculateEMA (data : List ℚ) (period : ℕ) : List (Option ℚ) :=
  emaFrom data period data.length 0 none

/-- The mathematical value carried by the `ema` variable after iteration `i`
of the source loop (for `period ≥ 1` and `i ≥ period - 1`):  SMA seed up to
index `period - 1`, exponential recursion afterwards. -/
def emaVal (data : List ℚ) (p : ℕ) : ℕ → ℚ
  | 0 => (data.take p).sum / p
  | i + 1 =>
    if i + 2 ≤ p then (data.take p).sum / p
    else (data.getD (i + 1) 0 - emaVal data p i) * (2 / ((p : ℚ) + 1)) + emaVal data p i

theorem emaFrom_length (data : List ℚ) (period : ℕ) :
    ∀ fuel i (ema : Option ℚ), data.length - i = fuel →
      (emaFrom data period fuel i ema).length = fuel := by
  intro fuel
  induction fuel with
  | zero => intro i ema _; rfl
  | succ fuel ih =>
    intro i ema hfuel
    have h : i < data.length := by omega
    rw [emaFrom, dif_pos h]
    split
    · rw [List.length_cons, ih _ ema (by omega)]
    · split
      · rw [List.length_cons, ih _ _ (by omega)]
      · rw [List.length_cons, ih _ _ (by omega)]

/-- Output length of `calculateEMA` always equals the input length. -/
theorem calculateEMA_length (data : List ℚ) (period : ℕ) :
    (calculateEMA data period).length = data.length := by
  exact emaFrom_length data period data.length 0 none (by omega)

/-- Closed form of the `calculateEMA` loop (for `period ≥ 1`): starting at
iteration `i` with the invariant that the running `ema` variable holds
`emaVal data p (i-1)` whenever the seed has already been produced. -/
theorem emaFrom_eq_map (data : List ℚ) (p : ℕ) (hp : 1 ≤ p) :
    ∀ fuel i (ema : Option ℚ), data.length - i = fuel →
      (p ≤ i → ema = some (emaVal data p (i - 1))) →
      emaFrom data p fuel i ema =
        (List.range' i fuel).map
          (fun j => if j + 1 < p then none else some (emaVal data p j)) := by
  intro fuel
  induction fuel with
  | zero => intro i ema _ _; rfl
  | succ fuel ih =>
    intro i ema hfuel hinv
    have h : i < data.length := by omega
    rw [emaFrom, dif_pos h, List.range'_succ, List.map_cons]
    by_cases h1 : (i : ℤ) < (p : ℤ) - 1
    · have hi1 : i + 1 < p := by omega
      rw [if_pos h1]
      congr 1
      · simp [hi1]
      · exact ih _ _ (by omega) (fun hpi => absurd hpi (by omega))
    · rw [if_neg h1]
      by_cases h2 : (i : ℤ) = (p : ℤ) - 1
      · have hi1 : ¬ i + 1 < p := by omega
        have hseed : (data.take p).sum / (p : ℚ) = emaVal data p i := by
          cases i with
          | zero => simp [emaVal]
          | succ j =>
            have hj : j + 2 ≤ p := by omega
            simp [emaVal, hj]
        rw [if_pos h2]
        congr 1
        · simp only [hi1, ite_false, hseed]
        · exact ih _ _ (by omega)
            (fun _ => by rw [Nat.add_sub_cancel, ← hseed])
      · have hpi : p ≤ i := by omega
        have hi1 : ¬ i + 1 < p := by omega
        have hema : ema = some (emaVal data p (i - 1)) := hinv hpi
        have hstep : (data.get ⟨i, h⟩ - jsCoe ema) * (2 / ((p : ℚ) + 1)) + jsCoe ema
            = emaVal data p i := by
          cases i with
          | zero => omega
          | succ j =>
            have hj : ¬ j + 2 ≤ p := by omega
            rw [hema]
            simp only [jsCoe, Option.getD_some, Nat.add_sub_cancel]
            rw [emaVal, if_neg hj, List.getD_eq_getElem data 0 h, List.get_eq_getElem]
        rw [if_neg h2]
        congr 1
        · simp only [hi1, ite_false, hstep]
        · exact ih _ _ (by omega)
            (fun _ => by rw [Nat.add_sub_cancel, ← hstep])

/-- Closed form of `calculateEMA` (for `period ≥ 1`): the entry at index `j`
is `none` iff `j < period - 1`, and the recursive value `emaVal` otherwise. -/
theorem calculateEMA_eq_map (data : List ℚ) (p : ℕ) (hp : 1 ≤ p) :
    calculateEMA data p =
      (List.range data.length).map
        (fun j => if j + 1 < p then none else some (emaVal data p j)) := by
  rw [calculateEMA, emaFrom_eq_map data p hp data.length 0 none (by omega) (by omega),
    List.range_eq_range']

theorem getD_map_range (f : ℕ → Option ℚ) (n i : ℕ) :
    ((List.range n).map f).getD i none = if i < n then f i else none := by
  by_cases h : i < n
  · rw [if_pos h, List.getD_eq_getElem _ _ (by simpa using h)]
    simp [h]
  · rw [if_neg h, List.getD_eq_default _ _ (by simpa using h)]

theorem emaVal_seed (data : List ℚ) (p : ℕ) :
    ∀ i, i + 1 ≤ p → emaVal data p i = (data.take p).sum / p
  | 0, _ => by simp [emaVal]
  | i + 1, h => by rw [emaVal, if_pos (by omega)]

/-- **C2**: for every data series and period `p` with `1 ≤ p ≤ data.length`,
`calculateEMA data p` is undefined at every index below `p - 1`, equals the
arithmetic mean of the first `p` values at index `p - 1`, and at every index
`i > p - 1` equals `(data[i] - ema[i-1]) * (2/(p+1)) + ema[i-1]`; when
`data.length < p` the entire output is undefined.  Concretely, on closes
`[1,…,10]` with `p = 3` the first two entries are undefined, the third is
`2` and the fourth is `3`. -/
theorem ema_pointwise_spec (data : List ℚ) (p : ℕ) (hp : 1 ≤ p) :
    (p ≤ data.length →
      (∀ i, i + 1 < p → (calculateEMA data p).getD i none = none) ∧
      (calculateEMA data p).getD (p - 1) none = some ((data.take p).sum / p) ∧
      (∀ i, p ≤ i → i < data.length →
        ∃ prev, (calculateEMA data p).getD (i - 1) none = some prev ∧
          (calculateEMA data p).getD i none =
            some ((data.getD i 0 - prev) * (2 / ((p : ℚ) + 1)) + prev))) ∧
    (data.length < p → calculateEMA data p = data.map fun _ => none) ∧
    ((calculateEMA [1,2,3,4,5,6,7,8,9,10] 3).getD 0 none = none ∧
      (calculateEMA [1,2,3,4,5,6,7,8,9,10] 3).getD 1 none = none ∧
      (calculateEMA [1,2,3,4,5,6,7,8,9,10] 3).getD 2 none = some 2 ∧
      (calculateEMA [1,2,3,4,5,6,7,8,9,10] 3).getD 3 none = some 3) := by
  refine ⟨fun hlen => ⟨?_, ?_, ?_⟩, fun hlen => ?_, ?_⟩
  · intro i hi
    rw [calculateEMA_eq_map data p hp, getD_map_range]
    split <;> simp [hi]
  · have hq : ((p : ℚ)) ≠ 0 := by positivity
    rw [calculateEMA_eq_map data p hp, getD_map_range, if_pos (by omega),
      if_neg (by omega), emaVal_seed data p (p - 1) (by omega)]
  · intro i hpi hilen
    refine ⟨emaVal data p (i - 1), ?_, ?_⟩
    · rw [calculateEMA_eq_map data p hp, getD_map_range, if_pos (by omega),
        if_neg (by omega)]
    · rw [calculateEMA_eq_map data p hp, getD_map_range, if_pos (by omega),
        if_neg (by omega)]
      cases i with
      | zero => omega
      | succ j =>
        rw [emaVal, if_neg (by omega), Nat.add_sub_cancel]
  · rw [calculateEMA_eq_map data p hp,
      List.map_congr_left (g := fun _ => (none : Option ℚ))
        (fun j hj => by rw [List.mem_range] at hj; rw [if_pos (by omega)])]
    simp
  · have e2 : emaVal [1,2,3,4,5,6,7,8,9,10] 3 2 = 2 := by
      norm_num [emaVal]
    have e3 : emaVal [1,2,3,4,5,6,7,8,9,10] 3 3 = 3 := by
      rw [show (3:ℕ) = 2 + 1 from rfl, emaVal, if_neg (by norm_num), e2]
      norm_num
    refine ⟨?_, ?_, ?_, ?_⟩ <;>
      rw [calculateEMA_eq_map _ 3 (by norm_num), getD_map_range] <;>
      norm_num [e2, e3]

/-- Witness for `ema_pointwise_spec` at `closes = [1,…,10]`, `p = 3`. -/
theorem ema_pointwise_spec_witness :
    (calculateEMA [1,2,3,4,5,6,7,8,9,10] 3).getD 2 none = some 2 ∧
      (calculateEMA [1,2,3,4,5,6,7,8,9,10] 3).getD 3 none = some 3 :=
  ⟨(ema_pointwise_spec [1,2,3,4,5,6,7,8,9,10] 3 (by norm_num)).2.2.2.2.1,
   (ema_pointwise_spec [1,2,3,4,5,6,7,8,9,10] 3 (by norm_num)).2.2.2.2.2⟩

/-- Pointwise difference of nullable samples: `some (x - y)` when both are
defined, `null` otherwise — the body of the `.map` callbacks that build the
MACD line and the histogram in the source. -/
def sub2 (a b : Option ℚ) : Option ℚ :=
  match a, b with
  | some x, some y => some (x - y)
  | _, _ => none

/-- Re-mapping of the signal EMA back onto the full index axis.  The source
walks `macdLine` with a running `signalIdx` incremented exactly at the
defined entries, pushing `signalEMA[signalIdx] ?? null`; consuming the
`signalEMA` list in order is the same access pattern. -/
def mapSignalBack : List (Option ℚ) → List (Option ℚ) → List (Option ℚ)
  | [], _ => []
  | none :: rest, sig => none :: mapSignalBack rest sig
  | some _ :: rest, [] => none :: mapSignalBack rest []
  | some _ :: rest, s :: sig => s :: mapSignalBack rest sig

/-- The triple returned by `calculateMACD`. -/
structure MACDResult where
  macdLine : List (Option ℚ)
  signalLine : List (Option ℚ)
  histogram : List (Option ℚ)
deriving DecidableEq

/-- `calculateMACD` from the source: MACD line = fast EMA − slow EMA
pointwise, signal line = EMA of the null-stripped MACD line re-mapped onto
the original index axis, histogram = MACD − signal pointwise. -/
def calculateMACD (data : List ℚ) (fastPeriod slowPeriod signalPeriod : ℕ) : MACDResult :=
  let fastEMA := calculateEMA data fastPeriod
  let slowEMA := calculateEMA data slowPeriod
  let macdLine := List.zipWith sub2 fastEMA slowEMA
  let validMacdValues := macdLine.filterMap id
  let signalEMA := calculateEMA validMacdValues signalPeriod
  let signalLine := mapSignalBack macdLine signalEMA
  let histogram := List.zipWith sub2 macdLine signalLine
  ⟨macdLine, signalLine, histogram⟩

theorem mapSignalBack_length :
    ∀ (l sig : List (Option ℚ)), (mapSignalBack l sig).length = l.length
  | [], _ => rfl
  | none :: rest, sig => by
    rw [mapSignalBack, List.length_cons, List.length_cons, mapSignalBack_length rest sig]
  | some x :: rest, [] => by
    rw [mapSignalBack, List.length_cons, List.length_cons, mapSignalBack_length rest []]
  | some x :: rest, s :: sig => by
    rw [mapSignalBack, List.length_cons, List.length_cons, mapSignalBack_length rest sig]

theorem mapSignalBack_replicate (k : ℕ) (rest sig : List (Option ℚ)) :
    mapSignalBack (List.replicate k none ++ rest) sig =
      List.replicate k none ++ mapSignalBack rest sig := by
  induction k with
  | zero => rfl
  | succ k ih => rw [List.replicate_succ, List.cons_append, mapSignalBack, ih, List.cons_append]

theorem mapSignalBack_of_all_some :
    ∀ (l sig : List (Option ℚ)), (∀ x ∈ l, x.isSome) → sig.length = l.length →
      mapSignalBack l sig = sig
  | [], [], _, _ => rfl
  | [], s :: sig, _, h => by simp at h
  | none :: rest, _, hall, _ => by simp at hall
  | some v :: rest, s :: sig, hall, h => by
    rw [mapSignalBack, mapSignalBack_of_all_some rest sig
      (fun x hx => hall x (List.mem_cons_of_mem _ hx)) (by simpa using h)]

theorem getD_zipWith :
    ∀ (a b : List (Option ℚ)) (i : ℕ), i < a.length → i < b.length →
      (List.zipWith sub2 a b).getD i none = sub2 (a.getD i none) (b.getD i none)
  | x :: a, y :: b, 0, _, _ => rfl
  | x :: a, y :: b, i + 1, ha, hb => by
    rw [List.zipWith_cons_cons]
    simpa using getD_zipWith a b i (by simpa using ha) (by simpa using hb)

theorem getD_replicate_none (k i : ℕ) :
    (List.replicate k (none : Option ℚ)).getD i none = none := by
  by_cases h : i < k
  · rw [List.getD_eq_getElem _ _ (by simpa using h), List.getElem_replicate]
  · rw [List.getD_eq_default _ _ (by simpa using h)]

theorem map_range_eq_replicate_append (v : ℕ → ℚ) (K n : ℕ) (hK : K ≤ n) :
    (List.range n).map (fun j => if j < K then none else some (v j)) =
      List.replicate K (none : Option ℚ) ++ (List.range' K (n - K)).map (fun j => some (v j)) := by
  conv_lhs =>
    rw [List.range_eq_range', show n = (n - K) + K by omega,
      ← List.range'_append_1 0 K (n - K)]
  rw [List.map_append]
  congr 1
  · rw [List.map_congr_left (g := fun _ => (none : Option ℚ))
      (fun j hj => by
        have : j < K := by
          have := List.mem_range'_1.mp hj
          omega
        rw [if_pos this])]
    simp
  · rw [Nat.zero_add]
    refine List.map_congr_left (fun j hj => ?_)
    have : K ≤ j := by
      have := List.mem_range'_1.mp (by simpa using hj)
      omega
    rw [if_neg (by omega)]

/-- Structure of the MACD line (for `fast, slow ≥ 1`): `none` below index
`max fast slow - 1`, the difference of the two EMA values at and above it. -/
theorem macdLine_eq_map (data : List ℚ) (fast slow signal : ℕ)
    (hf : 1 ≤ fast) (hs : 1 ≤ slow) :
    (calculateMACD data fast slow signal).macdLine =
      (List.range data.length).map
        (fun j => if j < max fast slow - 1 then none
          else some (emaVal data fast j - emaVal data slow j)) := by
  show List.zipWith sub2 (calculateEMA data fast) (calculateEMA data slow) = _
  rw [calculateEMA_eq_map data fast hf, calculateEMA_eq_map data slow hs,
    List.zipWith_map, List.zipWith_same]
  refine List.map_congr_left (fun j _ => ?_)
  by_cases h1 : j + 1 < fast <;> by_cases h2 : j + 1 < slow
  · rw [if_pos h1, if_pos h2, if_pos (by omega)]; rfl
  · rw [if_pos h1, if_neg h2, if_pos (by omega)]; rfl
  · rw [if_neg h1, if_pos h2, if_pos (by omega)]; rfl
  · rw [if_neg h1, if_neg h2, if_neg (by omega)]; rfl

theorem getD_replicate_append (k : ℕ) (l : List (Option ℚ)) (i : ℕ) :
    (List.replicate k (none : Option ℚ) ++ l).getD i none =
      if i < k then none else l.getD (i - k) none := by
  by_cases h : i < k
  · rw [if_pos h, List.getD_eq_getElem _ _ (by simp; omega),
      List.getElem_append_left (by simpa using h), List.getElem_replicate]
  · rw [if_neg h, List.getD_eq_getElem?_getD, List.getElem?_append_right (by simp; omega)]
    simp [List.getD_eq_getElem?_getD]

theorem filterMap_id_replicate_none (k : ℕ) :
    (List.replicate k (none : Option ℚ)).filterMap id = [] := by
  induction k with
  | zero => rfl
  | succ k ih => rw [List.replicate_succ, List.filterMap_cons]; exact ih

theorem filterMap_some_fn (v : ℕ → ℚ) (l : List ℕ) :
    l.filterMap (fun j => some (v j)) = l.map v := by
  induction l with
  | nil => rfl
  | cons x l ih => simp [List.filterMap_cons, ih]

/-- **C3**: the MACD line is the pointwise difference of the fast and slow
EMA (defined only where both are defined); the signal line is the EMA of
the null-stripped MACD line re-mapped onto the original index axis, so its
first defined index is `(first defined MACD index) + signal - 1` rather
than `signal - 1`; the histogram is the pointwise difference of the MACD
and signal lines. -/
theorem macd_spec (data : List ℚ) (fast slow signal : ℕ)
    (hf : 1 ≤ fast) (hs : 1 ≤ slow) (hsig : 1 ≤ signal) :
    (∀ i, i < data.length →
      (calculateMACD data fast slow signal).macdLine.getD i none =
        sub2 ((calculateEMA data fast).getD i none) ((calculateEMA data slow).getD i none)) ∧
    (max fast slow - 1 ≤ data.length →
      (calculateMACD data fast slow signal).signalLine =
        List.replicate (max fast slow - 1) none ++
          calculateEMA ((calculateMACD data fast slow signal).macdLine.filterMap id) signal) ∧
    (∀ i, i < data.length →
      (calculateMACD data fast slow signal).histogram.getD i none =
        sub2 ((calculateMACD data fast slow signal).macdLine.getD i none)
          ((calculateMACD data fast slow signal).signalLine.getD i none)) ∧
    (max fast slow - 1 + signal ≤ data.length →
      (∀ i, i < max fast slow - 1 →
        (calculateMACD data fast slow signal).macdLine.getD i none = none) ∧
      ((calculateMACD data fast slow signal).macdLine.getD (max fast slow - 1) none).isSome ∧
      (∀ i, i < max fast slow - 1 + signal - 1 →
        (calculateMACD data fast slow signal).signalLine.getD i none = none) ∧
      ((calculateMACD data fast slow signal).signalLine.getD
        (max fast slow - 1 + signal - 1) none).isSome) := by
  set n := data.length with hn
  set K := max fast slow - 1 with hKdef
  have hml : (calculateMACD data fast slow signal).macdLine =
      (List.range n).map
        (fun j => if j < K then none
          else some (emaVal data fast j - emaVal data slow j)) := by
    rw [macdLine_eq_map data fast slow signal hf hs]
  have hml_len : (calculateMACD data fast slow signal).macdLine.length = n := by
    rw [hml, List.length_map, List.length_range]
  have hsl0 : (calculateMACD data fast slow signal).signalLine =
      mapSignalBack (calculateMACD data fast slow signal).macdLine
        (calculateEMA ((calculateMACD data fast slow signal).macdLine.filterMap id) signal) :=
    rfl
  have hhist : (calculateMACD data fast slow signal).histogram =
      List.zipWith sub2 (calculateMACD data fast slow signal).macdLine
        (calculateMACD data fast slow signal).signalLine := rfl
  have hsl_len : (calculateMACD data fast slow signal).signalLine.length = n := by
    rw [hsl0, mapSignalBack_length, hml_len]
  have hsplit : K ≤ n → (calculateMACD data fast slow signal).macdLine =
      List.replicate K (none : Option ℚ) ++
        (List.range' K (n - K)).map
          (fun j => some (emaVal data fast j - emaVal data slow j)) := fun hK => by
    rw [hml, map_range_eq_replicate_append _ K n hK]
  have hvalid : K ≤ n → (calculateMACD data fast slow signal).macdLine.filterMap id =
      (List.range' K (n - K)).map (fun j => emaVal data fast j - emaVal data slow j) :=
    fun hK => by
    rw [hsplit hK, List.filterMap_append, filterMap_id_replicate_none, List.nil_append]
    simp only [List.filterMap_map, Function.comp]
    exact filterMap_some_fn _ _
  have hvalid_len : K ≤ n →
      ((calculateMACD data fast slow signal).macdLine.filterMap id).length = n - K :=
    fun hK => by rw [hvalid hK, List.length_map, List.length_range']
  have hsig_struct : K ≤ n → (calculateMACD data fast slow signal).signalLine =
      List.replicate K none ++
        calculateEMA ((calculateMACD data fast slow signal).macdLine.filterMap id) signal :=
    fun hK => by
    rw [hsl0]
    conv_lhs => rw [hsplit hK]
    rw [mapSignalBack_replicate,
      mapSignalBack_of_all_some _ _
        (by
          intro x hx
          obtain ⟨j, _, rfl⟩ := List.mem_map.mp hx
          rfl)
        (by
          rw [calculateEMA_length, ← hsplit hK, hvalid_len hK,
            List.length_map, List.length_range']),
      ← hsplit hK]
  refine ⟨?_, hsig_struct, ?_, ?_⟩
  · intro i hi
    exact getD_zipWith _ _ i (by rw [calculateEMA_length]; exact hi)
      (by rw [calculateEMA_length]; exact hi)
  · intro i hi
    rw [hhist]
    exact getD_zipWith _ _ i (by rw [hml_len]; exact hi) (by rw [hsl_len]; exact hi)
  · intro hKS
    have hK : K ≤ n := by omega
    refine ⟨?_, ?_, ?_, ?_⟩
    · intro i hi
      rw [hml, getD_map_range, if_pos (by omega), if_pos hi]
    · rw [hml, getD_map_range, if_pos (by omega), if_neg (by omega)]
      rfl
    · intro i hi
      rw [hsig_struct hK, getD_replicate_append]
      by_cases h : i < K
      · rw [if_pos h]
      · rw [if_neg h, calculateEMA_eq_map _ signal hsig, getD_map_range,
          hvalid_len hK, if_pos (by omega), if_pos (by omega)]
    · rw [hsig_struct hK, getD_replicate_append, if_neg (by omega),
        calculateEMA_eq_map _ signal hsig, getD_map_range, hvalid_len hK,
        if_pos (by omega), if_neg (by omega)]
      rfl

/-- Witness for `macd_spec` at `data = [1,2,3,4]`, `fast = 1`, `slow = 2`,
`signal = 2` (so the first defined MACD index is `1` and the signal line's
first defined index is `1 + 2 - 1 = 2`). -/
theorem macd_spec_witness :
    (calculateMACD [1,2,3,4] 1 2 2).signalLine.getD 1 none = none ∧
      ((calculateMACD [1,2,3,4] 1 2 2).signalLine.getD 2 none).isSome := by
  have h := (macd_spec [1,2,3,4] 1 2 2 (by norm_num) (by norm_num) (by norm_num)).2.2.2
    (by decide)
  exact ⟨by simpa using h.2.2.1 1 (by decide), by simpa using h.2.2.2⟩

/-- The price-delta series of `calculateRSI`:
`changes[i] = data[i+1] - data[i]`. -/
def priceChanges (data : List ℚ) : List ℚ :=
  List.zipWith (fun a b => a - b) (data.drop 1) data

/-- Wilder's smoothed-average step from the source:
`avg = (avg * (period - 1) + current) / period`. -/
def wilderNextAvg (period : ℕ) (avg cur : ℚ) : ℚ :=
  (avg * ((period : ℚ) - 1) + cur) / period

/-- The guarded RSI formula of the source: exactly `100` when the average
loss is `0`, else `100 - 100 / (1 + avgGain / avgLoss)`. -/
def rsiValue (avgGain avgLoss : ℚ) : Option ℚ :=
  if avgLoss = 0 then some 100 else some (100 - 100 / (1 + avgGain / avgLoss))

/-- Seed average gain of `calculateRSI`: the gains among the first `period`
deltas accumulated by the seed loop, divided by `period`. -/
def seedGain (period : ℕ) (changes : List ℚ) : ℚ :=
  ((changes.take period).foldl (fun acc c => if 0 < c then acc + c else acc) 0) / period

/-- Seed average loss of `calculateRSI`: the absolute losses among the first
`period` deltas accumulated by the seed loop, divided by `period`. -/
def seedLoss (period : ℕ) (changes : List ℚ) : ℚ :=
  ((changes.take period).foldl (fun acc c => if 0 < c then acc else acc + |c|) 0) / period

/-- The "subsequent RSIs" loop of `calculateRSI`: one output entry per
remaining delta, updating both smoothed averages with the guarded formula
at every step. -/
def rsiStep (period : ℕ) : ℚ → ℚ → List ℚ → List (Option ℚ)
  | _, _, [] => []
  | avgGain, avgLoss, c :: rest =>
    rsiValue (wilderNextAvg period avgGain (if 0 < c then c else 0))
        (wilderNextAvg period avgLoss (if c < 0 then |c| else 0)) ::
      rsiStep period (wilderNextAvg period avgGain (if 0 < c then c else 0))
        (wilderNextAvg period avgLoss (if c < 0 then |c| else 0)) rest

/-- `calculateRSI` from the source: all-`null` when `data.length < period+1`;
otherwise one initial `null`, `period` `null`s pushed by the seed loop, the
first RSI from the seed averages, then the smoothed recursion over the
deltas from index `period + 1` on (the source loop starts at
`i = period + 1`, so `changes[period]` is skipped). -/
def calculateRSI (data : List ℚ) (period : ℕ) : List (Option ℚ) :=
  if data.length < period + 1 then data.map fun _ => none
  else
    List.replicate (period + 1) (none : Option ℚ) ++
      rsiValue (seedGain period (priceChanges data)) (seedLoss period (priceChanges data)) ::
        rsiStep period (seedGain period (priceChanges data))
          (seedLoss period (priceChanges data)) ((priceChanges data).drop (period + 1))

/-- **C1** (violation at the failing input): on an input of length exactly
`period + 1` the RSI warm-up emits `period + 2` entries — `1 + period`
`null`s plus the first defined value — so the output is longer than the
input.  `calculateRSI [1,2,3] 2` has length `4` while the input has
length `3` (for all other lengths, and for EMA/MACD, the length invariant
does hold). -/
theorem rsi_length_bug :
    (calculateRSI [1, 2, 3] 2).length = 4 ∧ ([1, 2, 3] : List ℚ).length = 3 := by
  refine ⟨?_, rfl⟩
  rw [calculateRSI, if_neg (by norm_num)]
  norm_num [priceChanges, rsiStep]

theorem gain_eq_max (c : ℚ) : (if 0 < c then c else 0) = max c 0 := by
  by_cases h : 0 < c
  · rw [if_pos h, max_eq_left h.le]
  · rw [if_neg h, max_eq_right (not_lt.mp h)]

theorem loss_eq_max (c : ℚ) : (if c < 0 then |c| else 0) = max (-c) 0 := by
  by_cases h : c < 0
  · rw [if_pos h, abs_of_neg h, max_eq_left (by linarith)]
  · rw [if_neg h, max_eq_right (by simp at h; linarith)]

theorem foldl_gain (l : List ℚ) :
    ∀ a : ℚ, l.foldl (fun acc c => if 0 < c then acc + c else acc) a =
      a + (l.map (fun c => max c 0)).sum := by
  induction l with
  | nil => intro a; simp
  | cons c l ih =>
    intro a
    rw [List.foldl_cons, List.map_cons, List.sum_cons, ih]
    by_cases h : 0 < c
    · rw [if_pos h, max_eq_left h.le]; ring
    · rw [if_neg h, max_eq_right (not_lt.mp h)]; ring

theorem foldl_loss (l : List ℚ) :
    ∀ a : ℚ, l.foldl (fun acc c => if 0 < c then acc else acc + |c|) a =
      a + (l.map (fun c => max (-c) 0)).sum := by
  induction l with
  | nil => intro a; simp
  | cons c l ih =>
    intro a
    rw [List.foldl_cons, List.map_cons, List.sum_cons, ih]
    by_cases h : 0 < c
    · rw [if_pos h, max_eq_right (by linarith)]; ring
    · rw [if_neg h, abs_of_nonpos (not_lt.mp h), max_eq_left (by simp at h; linarith)]; ring

theorem seedGain_eq_sum (p : ℕ) (changes : List ℚ) :
    seedGain p changes = (((changes.take p).map (fun c => max c 0)).sum) / p := by
  rw [seedGain, foldl_gain, zero_add]

theorem seedLoss_eq_sum (p : ℕ) (changes : List ℚ) :
    seedLoss p changes = (((changes.take p).map (fun c => max (-c) 0)).sum) / p := by
  rw [seedLoss, foldl_loss, zero_add]

/-- The pair of Wilder smoothed averages after consuming a list of deltas,
written with the gain `max c 0` and the absolute loss `max (-c) 0`. -/
def wilderAvgs (p : ℕ) : ℚ → ℚ → List ℚ → ℚ × ℚ
  | g, l, [] => (g, l)
  | g, l, c :: cs =>
    wilderAvgs p (wilderNextAvg p g (max c 0)) (wilderNextAvg p l (max (-c) 0)) cs

theorem rsiStep_getD (p : ℕ) :
    ∀ (cs : List ℚ) (g l : ℚ) (j : ℕ), j < cs.length →
      (rsiStep p g l cs).getD j none =
        rsiValue (wilderAvgs p g l (cs.take (j + 1))).1 (wilderAvgs p g l (cs.take (j + 1))).2
  | [], _, _, j, hj => by simp at hj
  | c :: cs, g, l, 0, _ => by
    rw [rsiStep, List.getD_cons_zero, gain_eq_max, loss_eq_max]
    rfl
  | c :: cs, g, l, j + 1, hj => by
    rw [rsiStep, List.getD_cons_succ,
      rsiStep_getD p cs _ _ j (by simpa using hj), gain_eq_max, loss_eq_max]
    rfl

theorem rsiValue_bounds (g l : ℚ) (hg : 0 ≤ g) (hl : 0 ≤ l) (x : ℚ)
    (hx : rsiValue g l = some x) : 0 ≤ x ∧ x ≤ 100 := by
  rw [rsiValue] at hx
  by_cases h : l = 0
  · rw [if_pos h] at hx
    injection hx with hx
    subst hx
    norm_num
  · rw [if_neg h] at hx
    injection hx with hx
    subst hx
    have hl' : 0 < l := lt_of_le_of_ne hl (Ne.symm h)
    have hq : 0 ≤ g / l := div_nonneg hg hl'.le
    have h2 : 100 / (1 + g / l) ≤ 100 := div_le_self (by norm_num) (by linarith)
    have h3 : 0 ≤ 100 / (1 + g / l) := by positivity
    constructor <;> linarith

theorem wilderNextAvg_nonneg (p : ℕ) (hp : 1 ≤ p) (avg cur : ℚ)
    (h1 : 0 ≤ avg) (h2 : 0 ≤ cur) : 0 ≤ wilderNextAvg p avg cur := by
  have hp' : (1 : ℚ) ≤ (p : ℚ) := by exact_mod_cast hp
  have h3 : (0 : ℚ) ≤ (p : ℚ) - 1 := by linarith
  exact div_nonneg (add_nonneg (mul_nonneg h1 h3) h2) (by positivity)

theorem rsiStep_bounds (p : ℕ) (hp : 1 ≤ p) :
    ∀ (cs : List ℚ) (g l : ℚ), 0 ≤ g → 0 ≤ l →
      ∀ (j : ℕ) (x : ℚ), (rsiStep p g l cs).getD j none = some x → 0 ≤ x ∧ x ≤ 100
  | [], _, _, _, _, j, x, hx => by simp [rsiStep, List.getD] at hx
  | c :: cs, g, l, hg, hl, j, x, hx => by
    have hgain : 0 ≤ (if 0 < c then c else 0) := by
      by_cases h : 0 < c
      · rw [if_pos h]; exact h.le
      · rw [if_neg h]
    have hloss : 0 ≤ (if c < 0 then |c| else 0) := by
      by_cases h : c < 0
      · rw [if_pos h]; exact abs_nonneg c
      · rw [if_neg h]
    cases j with
    | zero =>
      rw [rsiStep, List.getD_cons_zero] at hx
      exact rsiValue_bounds _ _ (wilderNextAvg_nonneg p hp _ _ hg hgain)
        (wilderNextAvg_nonneg p hp _ _ hl hloss) x hx
    | succ j =>
      rw [rsiStep, List.getD_cons_succ] at hx
      exact rsiStep_bounds p hp cs _ _ (wilderNextAvg_nonneg p hp _ _ hg hgain)
        (wilderNextAvg_nonneg p hp _ _ hl hloss) j x hx

theorem getD_map_none (data : List ℚ) (i : ℕ) :
    (data.map fun _ => (none : Option ℚ)).getD i none = none := by
  by_cases h : i < data.length
  · rw [List.getD_eq_getElem _ _ (by simpa using h), List.getElem_map]
  · rw [List.getD_eq_default _ _ (by simpa using h)]

theorem priceChanges_all_zero (c : ℚ) :
    ∀ (data : List ℚ), (∀ x ∈ data, x = c) → ∀ y ∈ priceChanges data, y = 0
  | [], _, y, hy => by simp [priceChanges] at hy
  | [a], _, y, hy => by simp [priceChanges] at hy
  | a :: b :: rest, h, y, hy => by
    have hcons : priceChanges (a :: b :: rest) = (b - a) :: priceChanges (b :: rest) := rfl
    rw [hcons, List.mem_cons] at hy
    rcases hy with rfl | hy
    · rw [h a (by simp), h b (by simp), sub_self]
    · exact priceChanges_all_zero c (b :: rest)
        (fun x hx => h x (List.mem_cons_of_mem _ hx)) y hy

theorem rsiStep_zero (p : ℕ) :
    ∀ cs : List ℚ, (∀ x ∈ cs, x = 0) →
      rsiStep p 0 0 cs = List.replicate cs.length (some 100)
  | [], _ => rfl
  | c :: cs, h => by
    have hc : c = 0 := h c (by simp)
    subst hc
    rw [rsiStep]
    have e1 : wilderNextAvg p 0 (if (0:ℚ) < 0 then (0:ℚ) else 0) = 0 := by
      rw [if_neg (lt_irrefl 0)]
      simp [wilderNextAvg]
    have e2 : wilderNextAvg p 0 (if (0:ℚ) < 0 then |(0:ℚ)| else 0) = 0 := by
      rw [if_neg (lt_irrefl 0)]
      simp [wilderNextAvg]
    rw [e1, e2, rsiStep_zero p cs (fun x hx => h x (List.mem_cons_of_mem _ hx))]
    rw [show rsiValue 0 0 = some 100 from by rw [rsiValue, if_pos rfl]]
    rw [List.length_cons, List.replicate_succ]

/-- **C4**: for `p ≥ 1`: an input shorter than `p + 1` yields an
all-undefined output; otherwise the warm-up region is undefined, the first
defined value is the guarded formula of the seed averages (gains/losses of
the first `p` deltas summed and divided by `p`), the following values apply
Wilder's recursion `avg = (avg*(p-1)+current)/p` to gains and losses with
the `avgLoss = 0 ⇒ RSI = 100` guard at every step, every defined value lies
in `[0, 100]`, and a constant-price series yields exactly `100` at every
defined index. -/
theorem rsi_spec (data : List ℚ) (p : ℕ) (hp : 1 ≤ p) :
    (data.length < p + 1 → calculateRSI data p = data.map fun _ => none) ∧
    (p + 1 ≤ data.length →
      (∀ i, i < p + 1 → (calculateRSI data p).getD i none = none) ∧
      (calculateRSI data p).getD (p + 1) none =
        rsiValue ((((priceChanges data).take p).map (fun c => max c 0)).sum / p)
          ((((priceChanges data).take p).map (fun c => max (-c) 0)).sum / p) ∧
      (∀ j, p + 2 + j < data.length →
        (calculateRSI data p).getD (p + 2 + j) none =
          rsiValue
            (wilderAvgs p ((((priceChanges data).take p).map (fun c => max c 0)).sum / p)
              ((((priceChanges data).take p).map (fun c => max (-c) 0)).sum / p)
              (((priceChanges data).drop (p + 1)).take (j + 1))).1
            (wilderAvgs p ((((priceChanges data).take p).map (fun c => max c 0)).sum / p)
              ((((priceChanges data).take p).map (fun c => max (-c) 0)).sum / p)
              (((priceChanges data).drop (p + 1)).take (j + 1))).2)) ∧
    (∀ i x, (calculateRSI data p).getD i none = some x → 0 ≤ x ∧ x ≤ 100) ∧
    ((∃ c, ∀ x ∈ data, x = c) → p + 1 ≤ data.length →
      ∀ i, p + 1 ≤ i → i < (calculateRSI data p).length →
        (calculateRSI data p).getD i none = some 100) := by
  have hchlen : (priceChanges data).length = data.length - 1 := by
    rw [priceChanges, List.length_zipWith, List.length_drop]
    omega
  refine ⟨fun hlen => ?_, fun hlen => ⟨?_, ?_, ?_⟩, ?_, ?_⟩
  · rw [calculateRSI, if_pos hlen]
  · intro i hi
    rw [calculateRSI, if_neg (by omega), getD_replicate_append, if_pos hi]
  · rw [calculateRSI, if_neg (by omega), getD_replicate_append, if_neg (by omega),
      show p + 1 - (p + 1) = 0 by omega, List.getD_cons_zero,
      seedGain_eq_sum, seedLoss_eq_sum]
  · intro j hj
    rw [calculateRSI, if_neg (by omega), getD_replicate_append, if_neg (by omega),
      show p + 2 + j - (p + 1) = j + 1 by omega, List.getD_cons_succ,
      rsiStep_getD p _ _ _ j (by rw [List.length_drop, hchlen]; omega),
      seedGain_eq_sum, seedLoss_eq_sum]
  · intro i x hx
    by_cases hlen : data.length < p + 1
    · rw [calculateRSI, if_pos hlen, getD_map_none] at hx
      exact absurd hx (by simp)
    · have hg0 : 0 ≤ seedGain p (priceChanges data) := by
        rw [seedGain_eq_sum]
        refine div_nonneg (List.sum_nonneg ?_) (by positivity)
        intro y hy
        obtain ⟨z, _, rfl⟩ := List.mem_map.mp hy
        exact le_max_right z 0
      have hl0 : 0 ≤ seedLoss p (priceChanges data) := by
        rw [seedLoss_eq_sum]
        refine div_nonneg (List.sum_nonneg ?_) (by positivity)
        intro y hy
        obtain ⟨z, _, rfl⟩ := List.mem_map.mp hy
        exact le_max_right (-z) 0
      rw [calculateRSI, if_neg hlen, getD_replicate_append] at hx
      by_cases hi : i < p + 1
      · rw [if_pos hi] at hx
        exact absurd hx (by simp)
      · rw [if_neg hi] at hx
        cases hk : i - (p + 1) with
        | zero =>
          rw [hk, List.getD_cons_zero] at hx
          exact rsiValue_bounds _ _ hg0 hl0 x hx
        | succ k =>
          rw [hk, List.getD_cons_succ] at hx
          exact rsiStep_bounds p hp _ _ _ hg0 hl0 k x hx
  · rintro ⟨c, hc⟩ hlen i hi1 hi2
    have hch : ∀ y ∈ priceChanges data, y = 0 := priceChanges_all_zero c data hc
    have hg : seedGain p (priceChanges data) = 0 := by
      rw [seedGain_eq_sum, List.sum_eq_zero, zero_div]
      intro y hy
      obtain ⟨z, hz, rfl⟩ := List.mem_map.mp hy
      rw [hch z (List.take_subset _ _ hz)]
      simp
    have hl : seedLoss p (priceChanges data) = 0 := by
      rw [seedLoss_eq_sum, List.sum_eq_zero, zero_div]
      intro y hy
      obtain ⟨z, hz, rfl⟩ := List.mem_map.mp hy
      rw [hch z (List.take_subset _ _ hz)]
      simp
    have hrs : rsiStep p (seedGain p (priceChanges data)) (seedLoss p (priceChanges data))
        ((priceChanges data).drop (p + 1)) =
        List.replicate ((priceChanges data).drop (p + 1)).length (some 100) := by
      rw [hg, hl]
      exact rsiStep_zero p _ (fun x hx => hch x (List.drop_subset _ _ hx))
    have hval : rsiValue (seedGain p (priceChanges data)) (seedLoss p (priceChanges data))
        = some 100 := by
      rw [hg, hl, rsiValue, if_pos rfl]
    have hlenR : (calculateRSI data p).length =
        p + 1 + 1 + ((priceChanges data).drop (p + 1)).length := by
      rw [calculateRSI, if_neg (by omega), List.length_append, List.length_replicate,
        List.length_cons, hrs, List.length_replicate]
      omega
    rw [hlenR] at hi2
    rw [calculateRSI, if_neg (by omega), getD_replicate_append, if_neg (by omega)]
    cases hk : i - (p + 1) with
    | zero => rw [List.getD_cons_zero, hval]
    | succ k =>
      rw [List.getD_cons_succ, hrs]
      have hklt : k < ((priceChanges data).drop (p + 1)).length := by omega
      rw [List.getD_eq_getElem _ _ (by simpa using hklt), List.getElem_replicate]

/-- Witness for `rsi_spec`: a constant series of length 4 with `p = 2`
yields `100` at index 3 and is undefined at index 0. -/
theorem rsi_spec_witness :
    (calculateRSI [5, 5, 5, 5] 2).getD 3 none = some 100 ∧
      (calculateRSI [5, 5, 5, 5] 2).getD 0 none = none := by
  have h := rsi_spec [5, 5, 5, 5] 2 (by norm_num)
  refine ⟨h.2.2.2 ⟨5, by intro x hx; simpa using hx⟩ (by norm_num) 3 (by norm_num) ?_, ?_⟩
  · rw [calculateRSI, if_neg (by norm_num)]
    norm_num [priceChanges, rsiStep]
  · exact (h.2.1 (by norm_num)).1 0 (by norm_num)

/-- Crossover direction. -/
inductive CrossType
  | bullish
  | bearish
deriving DecidableEq

/-- A crossover event: the candle time of the crossing plus its direction. -/
structure CrossEvent where
  time : ℚ
  ctype : CrossType
deriving DecidableEq

/-- Classification of one adjacent sample pair in `findMACDCrossovers`:
skip when any of the four samples is `null`; otherwise bullish when the
first series was `≤` and is now `>`, bearish when it was `≥` and is now
`<`. -/
def classifyCross (pa ca pb cb : Option ℚ) : Option CrossType :=
  match pa, ca, pb, cb with
  | some pa, some ca, some pb, some cb =>
    if pa ≤ pb ∧ cb < ca then some .bullish
    else if pb ≤ pa ∧ ca < cb then some .bearish
    else none
  | _, _, _, _ => none

/-- The loop of `findMACDCrossovers` from index `i` on (`fuel` = remaining
iterations, entered with `fuel = A.length - i`). -/
def findCrossoversFrom (A B : List (Option ℚ)) (times : List ℚ) :
    ℕ → ℕ → List CrossEvent
  | 0, _ => []
  | fuel + 1, i =>
    match classifyCross (A.getD (i - 1) none) (A.getD i none)
        (B.getD (i - 1) none) (B.getD i none) with
    | some t => ⟨times.getD i 0, t⟩ :: findCrossoversFrom A B times fuel (i + 1)
    | none => findCrossoversFrom A B times fuel (i + 1)

/-- `findMACDCrossovers` from the source: walk adjacent index pairs from
`i = 1`, emitting at most one event per pair. -/
def findMACDCrossovers (macdLine signalLine : List (Option ℚ)) (times : List ℚ) :
    List CrossEvent :=
  findCrossoversFrom macdLine signalLine times (macdLine.length - 1) 1

/-- The loop of `findZeroLineCrossovers` from index `i` on. -/
def findZeroFrom (A : List (Option ℚ)) (times : List ℚ) : ℕ → ℕ → List CrossEvent
  | 0, _ => []
  | fuel + 1, i =>
    match A.getD (i - 1) none, A.getD i none with
    | some pm, some cm =>
      if pm ≤ 0 ∧ 0 < cm then ⟨times.getD i 0, .bullish⟩ :: findZeroFrom A times fuel (i + 1)
      else if 0 ≤ pm ∧ cm < 0 then ⟨times.getD i 0, .bearish⟩ :: findZeroFrom A times fuel (i + 1)
      else findZeroFrom A times fuel (i + 1)
    | _, _ => findZeroFrom A times fuel (i + 1)

/-- `findZeroLineCrossovers` from the source. -/
def findZeroLineCrossovers (macdLine : List (Option ℚ)) (times : List ℚ) :
    List CrossEvent :=
  findZeroFrom macdLine times (macdLine.length - 1) 1

/-- The optional event contributed by the adjacent pair `(i-1, i)`. -/
def pairEvent (A B : List (Option ℚ)) (times : List ℚ) (i : ℕ) : Option CrossEvent :=
  (classifyCross (A.getD (i - 1) none) (A.getD i none)
    (B.getD (i - 1) none) (B.getD i none)).map (fun t => ⟨times.getD i 0, t⟩)

theorem findCrossoversFrom_eq_filterMap (A B : List (Option ℚ)) (times : List ℚ) :
    ∀ fuel i, findCrossoversFrom A B times fuel i =
      (List.range' i fuel).filterMap (pairEvent A B times) := by
  intro fuel
  induction fuel with
  | zero => intro i; rfl
  | succ fuel ih =>
    intro i
    rw [findCrossoversFrom, List.range'_succ, List.filterMap_cons]
    rw [pairEvent]
    cases h : classifyCross (A.getD (i - 1) none) (A.getD i none)
        (B.getD (i - 1) none) (B.getD i none) with
    | none => rw [Option.map_none', ih]
    | some t => rw [Option.map_some', ih]

theorem findMACD_eq_filterMap (A B : List (Option ℚ)) (times : List ℚ) :
    findMACDCrossovers A B times =
      (List.range' 1 (A.length - 1)).filterMap (pairEvent A B times) :=
  findCrossoversFrom_eq_filterMap A B times (A.length - 1) 1

theorem classifyCross_eq_some (pa ca pb cb : Option ℚ) (t : CrossType)
    (h : classifyCross pa ca pb cb = some t) :
    ∃ a b c d : ℚ, pa = some a ∧ ca = some b ∧ pb = some c ∧ cb = some d ∧
      ((t = .bullish ∧ a ≤ c ∧ d < b) ∨ (t = .bearish ∧ c ≤ a ∧ b < d)) := by
  cases pa <;> cases ca <;> cases pb <;> cases cb <;>
    simp only [classifyCross, reduceCtorEq] at h
  case some.some.some.some a b c d =>
    refine ⟨a, b, c, d, rfl, rfl, rfl, rfl, ?_⟩
    split_ifs at h with h1 h2
    · injection h with h'
      exact Or.inl ⟨h'.symm, h1⟩
    · injection h with h'
      exact Or.inr ⟨h'.symm, h2⟩

theorem pairEvent_some (A B : List (Option ℚ)) (times : List ℚ) (i : ℕ) (e : CrossEvent)
    (h : pairEvent A B times i = some e) :
    ∃ t, classifyCross (A.getD (i - 1) none) (A.getD i none)
        (B.getD (i - 1) none) (B.getD i none) = some t ∧
      e = ⟨times.getD i 0, t⟩ := by
  rw [pairEvent] at h
  obtain ⟨t, h1, h2⟩ := Option.map_eq_some'.mp h
  exact ⟨t, h1, h2.symm⟩

theorem getD_map_const0 (A : List (Option ℚ)) (k : ℕ) (h : k < A.length) :
    (A.map fun _ => (some (0 : ℚ))).getD k none = some 0 := by
  rw [List.getD_eq_getElem _ _ (by simpa using h), List.getElem_map]

theorem findZeroFrom_eq_aux (A : List (Option ℚ)) (times : List ℚ) :
    ∀ fuel i, 1 ≤ i → fuel + i ≤ A.length →
      findZeroFrom A times fuel i =
        findCrossoversFrom A (A.map fun _ => some 0) times fuel i := by
  intro fuel
  induction fuel with
  | zero => intro i _ _; rfl
  | succ fuel ih =>
    intro i hi hlen
    rw [findZeroFrom, findCrossoversFrom,
      getD_map_const0 A (i - 1) (by omega), getD_map_const0 A i (by omega)]
    cases hpm : A.getD (i - 1) none with
    | none =>
      cases hcm : A.getD i none with
      | none => simp only [classifyCross]; exact ih (i + 1) (by omega) (by omega)
      | some cm => simp only [classifyCross]; exact ih (i + 1) (by omega) (by omega)
    | some pm =>
      cases hcm : A.getD i none with
      | none => simp only [classifyCross]; exact ih (i + 1) (by omega) (by omega)
      | some cm =>
        simp only [classifyCross]
        split_ifs with h1 h2 <;>
          simp only [] <;> rw [ih (i + 1) (by omega) (by omega)]

/-- **C5**: the crossover detector emits, per adjacent index pair, at most
one event (the `filterMap` characterization); every emitted event comes
from a pair whose four samples are all defined and satisfies the boundary
comparisons (bullish: `prev[A] ≤ prev[B]` and `curr[A] > curr[B]`;
bearish: the mirror image); events carry `times[i]` in strictly increasing
time order; and the zero-line detector is the same algorithm with the
second series replaced by the constant `0`. -/
theorem crossover_spec (A B : List (Option ℚ)) (times : List ℚ)
    (hB : B.length = A.length) (hT : times.length = A.length)
    (hmono : List.Pairwise (· < ·) times) :
    (findMACDCrossovers A B times =
      (List.range' 1 (A.length - 1)).filterMap (pairEvent A B times)) ∧
    (∀ e ∈ findMACDCrossovers A B times, ∃ i, 1 ≤ i ∧ i < A.length ∧
      ∃ a b c d : ℚ,
        A.getD (i - 1) none = some a ∧ A.getD i none = some b ∧
        B.getD (i - 1) none = some c ∧ B.getD i none = some d ∧
        e.time = times.getD i 0 ∧
        ((e.ctype = .bullish ∧ a ≤ c ∧ d < b) ∨
          (e.ctype = .bearish ∧ c ≤ a ∧ b < d))) ∧
    List.Pairwise (fun a b : CrossEvent => a.time < b.time)
      (findMACDCrossovers A B times) ∧
    findZeroLineCrossovers A times =
      findMACDCrossovers A (A.map fun _ => some 0) times := by
  refine ⟨findMACD_eq_filterMap A B times, ?_, ?_, ?_⟩
  · intro e he
    rw [findMACD_eq_filterMap] at he
    obtain ⟨i, hi, hpe⟩ := List.mem_filterMap.mp he
    have hib := List.mem_range'_1.mp hi
    obtain ⟨t, hcl, rfl⟩ := pairEvent_some A B times i e hpe
    obtain ⟨a, b, c, d, h1, h2, h3, h4, hcond⟩ := classifyCross_eq_some _ _ _ _ t hcl
    refine ⟨i, hib.1, by omega, a, b, c, d, h1, h2, h3, h4, rfl, ?_⟩
    rcases hcond with ⟨rfl, hc⟩ | ⟨rfl, hc⟩
    · exact Or.inl ⟨rfl, hc⟩
    · exact Or.inr ⟨rfl, hc⟩
  · rw [findMACD_eq_filterMap, List.pairwise_filterMap]
    refine List.Pairwise.imp_of_mem ?_ (List.pairwise_lt_range' 1 (A.length - 1))
    intro i j hi hj hij e he e' he'
    rw [Option.mem_def] at he he'
    obtain ⟨t, _, rfl⟩ := pairEvent_some A B times i e he
    obtain ⟨t', _, rfl⟩ := pairEvent_some A B times j e' he'
    have hi' := List.mem_range'_1.mp hi
    have hj' := List.mem_range'_1.mp hj
    have hilen : i < times.length := by omega
    have hjlen : j < times.length := by omega
    show times.getD i 0 < times.getD j 0
    rw [List.getD_eq_getElem _ _ hilen, List.getD_eq_getElem _ _ hjlen]
    exact List.pairwise_iff_getElem.mp hmono i j hilen hjlen hij
  · by_cases hA : A.length = 0
    · rw [findZeroLineCrossovers, findMACDCrossovers, hA]
      rfl
    · rw [findZeroLineCrossovers, findMACDCrossovers]
      exact findZeroFrom_eq_aux A times (A.length - 1) 1 (by omega) (by omega)

/-- Witness for `crossover_spec` on a two-sample bullish crossover. -/
theorem crossover_spec_witness :
    List.Pairwise (fun a b : CrossEvent => a.time < b.time)
      (findMACDCrossovers [some 1, some 3] [some 2, some 2] [10, 20]) :=
  (crossover_spec [some 1, some 3] [some 2, some 2] [10, 20] rfl rfl
    (by norm_num)).2.2.1

/-- The three supported timeframes (`TimeframeSchema`). -/
inductive Timeframe
  | h1
  | h4
  | d1
deriving DecidableEq

/-- The wire string of a timeframe. -/
def Timeframe.toStr : Timeframe → String
  | .h1 => "1h"
  | .h4 => "4h"
  | .d1 => "1d"

/-- The three supported indicators (`IndicatorTypeSchema`). -/
inductive IndicatorType
  | MACD
  | RSI
  | EMA
deriving DecidableEq

/-- The two panes (`PaneTypeSchema`). -/
inductive PaneType
  | price
  | indicator
deriving DecidableEq

/-- `HighlightPoint` from the schema. -/
structure HighlightPoint where
  time : ℚ
  price : Option ℚ
  pane : Option PaneType
  label : Option String
deriving DecidableEq

/-- `Annotation` from the schema: a text label at a time (and optional
price) on one of the panes. -/
structure ChartNote where
  time : ℚ
  price : Option ℚ
  text : String
  pane : Option PaneType
deriving DecidableEq

/-- The `region` payload of `HIGHLIGHT_REGION`. -/
structure RegionT where
  fromTime : ℚ
  toTime : ℚ
  pane : Option PaneType
  label : Option String
deriving DecidableEq

/-- The `range` payload of `FOCUS_RANGE`. -/
structure RangeT where
  fromTime : ℚ
  toTime : ℚ
deriving DecidableEq

/-- `Candle` from the schema. -/
structure Candle where
  time : ℚ
  openPrice : ℚ
  highPrice : ℚ
  lowPrice : ℚ
  closePrice : ℚ
  volume : Option ℚ
deriving DecidableEq

/-- The validated command union `ChartAction` (tag = `type`); `addNote` is
`ADD_ANNOTATION` in the source. -/
inductive ChartAction
  | setSymbol (symbol : String)
  | setTimeframe (timeframe : Timeframe)
  | loadCandles (symbol : String) (timeframe : String) (fromT toT : Option ℚ)
  | addIndicator (indicator : IndicatorType) (params : Option (List (String × ℚ)))
  | updateIndicatorParams (indicator : IndicatorType) (params : List (String × ℚ))
  | highlightPoints (points : List HighlightPoint)
  | highlightRegion (region : RegionT)
  | addNote (note : ChartNote)
  | focusRange (range : RangeT)
  | clearHighlights
  | clearIndicators
deriving DecidableEq

/-- `IndicatorConfig`: `params` is a JS record, modelled as an association
list. -/
structure IndicatorConfig where
  name : IndicatorType
  params : List (String × ℚ)
  visible : Bool
deriving DecidableEq

/-- `ChartContextState` from the schema. -/
structure ChartContextState where
  symbol : String
  timeframe : Timeframe
  candles : List Candle
  indicators : List IndicatorConfig
  visibleFrom : Option ℚ
  visibleTo : Option ℚ
  highlights : List HighlightPoint
  annotations : List ChartNote
  isLoading : Bool
deriving DecidableEq

/-- `initialState` from the source. -/
def initialState : ChartContextState :=
  { symbol := "BTCUSDT"
    timeframe := .d1
    candles := []
    indicators := []
    visibleFrom := none
    visibleTo := none
    highlights := []
    annotations := []
    isLoading := false }

/-- The reducer's internal action type (`InternalAction`); `addNote` is
`ADD_ANNOTATION`. -/
inductive InternalAction
  | setSymbol (symbol : String)
  | setTimeframe (timeframe : Timeframe)
  | setCandles (candles : List Candle)
  | setLoading (isLoading : Bool)
  | addIndicator (indicator : IndicatorConfig)
  | updateIndicatorParams (indicatorName : IndicatorType) (params : List (String × ℚ))
  | removeIndicator (indicatorName : IndicatorType)
  | clearIndicators
  | addHighlights (points : List HighlightPoint)
  | addNote (note : ChartNote)
  | clearHighlights
  | setVisibleRange (fromT toT : ℚ)

/-- `chartReducer` from the source, case by case. -/
def chartReducer (state : ChartContextState) : InternalAction → ChartContextState
  | .setSymbol symbol => { state with symbol := symbol }
  | .setTimeframe timeframe => { state with timeframe := timeframe }
  | .setCandles candles => { state with candles := candles }
  | .setLoading isLoading => { state with isLoading := isLoading }
  | .addIndicator indicator =>
    if state.indicators.any (fun i => i.name == indicator.name) then
      { state with indicators :=
          state.indicators.map (fun i => if i.name = indicator.name then indicator else i) }
    else
      { state with indicators := state.indicators ++ [indicator] }
  | .updateIndicatorParams indicatorName params =>
    { state with indicators :=
        (state.indicators.map
          (fun i => if i.name = indicatorName then { i with params := params } else i)) }
  | .removeIndicator indicatorName =>
    { state with indicators := state.indicators.filter (fun i => !(i.name == indicatorName)) }
  | .clearIndicators => { state with indicators := [] }
  | .addHighlights points => { state with highlights := state.highlights ++ points }
  | .addNote note => { state with annotations := state.annotations ++ [note] }
  | .clearHighlights => { state with highlights := [], annotations := [] }
  | .setVisibleRange fromT toT =>
    { state with visibleFrom := some fromT, visibleTo := some toT }

/-- The candle-fetch collaborator: maps `(symbol, timeframe)` to fetched
candles, `none` modelling a failed reload.  The network fetch itself is
external to this core (spec §1). -/
abbrev FetchOracle := String → String → Option (List Candle)

/-- JS `a || b` on an optional string: the default both when absent and
when empty (falsy). -/
def jsOrStr (v : Option String) (d : String) : String :=
  match v with
  | some s => if s = "" then d else s
  | none => d

/-- `loadCandles` from the source: set `isLoading`, fetch, replace the
candles on success (a failure is only logged), and finally clear
`isLoading`. -/
def loadCandles (fetch : FetchOracle) (state : ChartContextState)
    (symbol? timeframe? : Option String) : ChartContextState :=
  let targetSymbol := jsOrStr symbol? state.symbol
  let targetTimeframe := jsOrStr timeframe? state.timeframe.toStr
  let s1 := chartReducer state (.setLoading true)
  let s2 :=
    match fetch targetSymbol targetTimeframe with
    | some candles => chartReducer s1 (.setCandles candles)
    | none => s1
  chartReducer s2 (.setLoading false)

/-- The `defaultParams` record of the `ADD_INDICATOR` case. -/
def defaultParams : IndicatorType → List (String × ℚ)
  | .MACD => [("fast", 12), ("slow", 26), ("signal", 9)]
  | .RSI => [("period", 14)]
  | .EMA => [("period", 20)]

/-- The JS template labels of `HIGHLIGHT_REGION`: absent when the region's
label is absent or empty (falsy). -/
def jsLabel (pre : String) (label? : Option String) : Option String :=
  match label? with
  | some l => if l = "" then none else some (pre ++ l)
  | none => none

/-- `executeAction` from the source.  Dispatches are modelled as immediate
reducer applications threaded through the state; the candle reload of
`SET_SYMBOL`/`SET_TIMEFRAME`/`LOAD_CANDLES` consults the fetch oracle. -/
def executeAction (fetch : FetchOracle) (state : ChartContextState) :
    ChartAction → ChartContextState
  | .setSymbol symbol =>
    loadCandles fetch (chartReducer state (.setSymbol symbol)) (some symbol) none
  | .setTimeframe timeframe =>
    loadCandles fetch (chartReducer state (.setTimeframe timeframe)) none
      (some timeframe.toStr)
  | .loadCandles symbol timeframe _ _ =>
    loadCandles fetch state (some symbol) (some timeframe)
  | .addIndicator indicator params =>
    chartReducer state (.addIndicator
      { name := indicator
        params := params.getD (defaultParams indicator)
        visible := true })
  | .updateIndicatorParams indicator params =>
    chartReducer state (.updateIndicatorParams indicator params)
  | .highlightPoints points => chartReducer state (.addHighlights points)
  | .highlightRegion region =>
    chartReducer state (.addHighlights
      [ { time := region.fromTime, price := none, pane := region.pane,
          label := jsLabel "Start: " region.label },
        { time := region.toTime, price := none, pane := region.pane,
          label := jsLabel "End: " region.label } ])
  | .addNote note => chartReducer state (.addNote note)
  | .focusRange range => chartReducer state (.setVisibleRange range.fromTime range.toTime)
  | .clearHighlights => chartReducer state .clearHighlights
  | .clearIndicators => chartReducer state .clearIndicators

/-- `executeActions` from the source: strictly sequential application. -/
def executeActions (fetch : FetchOracle) (state : ChartContextState) :
    List ChartAction → ChartContextState
  | [] => state
  | a :: rest => executeActions fetch (executeAction fetch state a) rest

/-- A JSON-style number: a finite value (exact rational) or one of the
non-finite JS doubles. -/
inductive JNum
  | fin (q : ℚ)
  | posInf
  | negInf
  | nan

/-- An untrusted JSON-like value, as carried by the LLM tool-call payload. -/
inductive JsonVal
  | num (n : JNum)
  | str (s : String)
  | jbool (b : Bool)
  | null
  | arr (items : List JsonVal)
  | obj (fields : List (String × JsonVal))

/-- Field access on a JSON object (JS object keys are unique; the first
binding wins). -/
def jlookup (fields : List (String × JsonVal)) (k : String) : Option JsonVal :=
  (fields.find? (fun p => p.1 == k)).map (fun p => p.2)

/-- Modelled from the spec: the acceptance behaviour of zod's `z.number()`
(the zod library itself is not among the repository sources).  Per the
spec, a numeric field must be a finite number; non-numbers and non-finite
numbers cause rejection. -/
def parseNum : JsonVal → Option ℚ
  | .num (.fin q) => some q
  | _ => none

/-- Modelled from the spec: zod's `z.string()`. -/
def parseStr : JsonVal → Option String
  | .str s => some s
  | _ => none

/-- Modelled from the spec: the closed `timeframe` enum (`TimeframeSchema`);
out-of-set values are rejected. -/
def parseTimeframe : JsonVal → Option Timeframe
  | .str "1h" => some .h1
  | .str "4h" => some .h4
  | .str "1d" => some .d1
  | _ => none

/-- Modelled from the spec: the closed `indicator` enum
(`IndicatorTypeSchema`). -/
def parseIndicatorType : JsonVal → Option IndicatorType
  | .str "MACD" => some .MACD
  | .str "RSI" => some .RSI
  | .str "EMA" => some .EMA
  | _ => none

/-- Modelled from the spec: the closed `pane` enum (`PaneTypeSchema`). -/
def parsePane : JsonVal → Option PaneType
  | .str "price" => some .price
  | .str "indicator" => some .indicator
  | _ => none

/-- Modelled from the spec: a required field — absent or non-conforming
values reject the command. -/
def reqField (f : JsonVal → Option α) : Option JsonVal → Option α
  | none => none
  | some v => f v

/-- Modelled from the spec: a zod `.optional()` field — absent is accepted
as absent; present values must conform. -/
def optField (f : JsonVal → Option α) : Option JsonVal → Option (Option α)
  | none => some none
  | some v => (f v).map some

/-- Modelled from the spec: zod's `z.record(z.string(), z.number())` for
`params` — an object all of whose values are (finite) numbers. -/
def parseParams : JsonVal → Option (List (String × ℚ))
  | .obj fields => fields.mapM (fun p => (parseNum p.2).map (fun q => (p.1, q)))
  | _ => none

/-- `HighlightPointSchema` (zod semantics modelled from the spec). -/
def parseHighlightPoint : JsonVal → Option HighlightPoint
  | .obj fields =>
    match reqField parseNum (jlookup fields "time") with
    | none => none
    | some time =>
      match optField parseNum (jlookup fields "price") with
      | none => none
      | some price =>
        match optField parsePane (jlookup fields "pane") with
        | none => none
        | some pane =>
          match optField parseStr (jlookup fields "label") with
          | none => none
          | some label => some { time := time, price := price, pane := pane, label := label }
  | _ => none

/-- The `points` array of `HIGHLIGHT_POINTS`. -/
def parsePoints : JsonVal → Option (List HighlightPoint)
  | .arr items => items.mapM parseHighlightPoint
  | _ => none

/-- The `region` object of `HIGHLIGHT_REGION`. -/
def parseRegion : JsonVal → Option RegionT
  | .obj fields =>
    match reqField parseNum (jlookup fields "fromTime") with
    | none => none
    | some fromTime =>
      match reqField parseNum (jlookup fields "toTime") with
      | none => none
      | some toTime =>
        match optField parsePane (jlookup fields "pane") with
        | none => none
        | some pane =>
          match optField parseStr (jlookup fields "label") with
          | none => none
          | some label =>
            some { fromTime := fromTime, toTime := toTime, pane := pane, label := label }
  | _ => none

/-- The `annotation` object of `ADD_ANNOTATION`. -/
def parseNote : JsonVal → Option ChartNote
  | .obj fields =>
    match reqField parseNum (jlookup fields "time") with
    | none => none
    | some time =>
      match optField parseNum (jlookup fields "price") with
      | none => none
      | some price =>
        match reqField parseStr (jlookup fields "text") with
        | none => none
        | some text =>
          match optField parsePane (jlookup fields "pane") with
          | none => none
          | some pane => some { time := time, price := price, text := text, pane := pane }
  | _ => none

/-- The `range` object of `FOCUS_RANGE`. -/
def parseRange : JsonVal → Option RangeT
  | .obj fields =>
    match reqField parseNum (jlookup fields "fromTime") with
    | none => none
    | some fromTime =>
      match reqField parseNum (jlookup fields "toTime") with
      | none => none
      | some toTime => some { fromTime := fromTime, toTime := toTime }
  | _ => none

/-- The `SET_SYMBOL` variant schema (`SetSymbolActionSchema`). -/
def tagSetSymbol (fields : List (String × JsonVal)) : Option ChartAction :=
  (reqField parseStr (jlookup fields "symbol")).map .setSymbol

/-- The `SET_TIMEFRAME` variant schema. -/
def tagSetTimeframe (fields : List (String × JsonVal)) : Option ChartAction :=
  (reqField parseTimeframe (jlookup fields "timeframe")).map .setTimeframe

/-- The `LOAD_CANDLES` variant schema. -/
def tagLoadCandles (fields : List (String × JsonVal)) : Option ChartAction :=
  match reqField parseStr (jlookup fields "symbol") with
  | none => none
  | some symbol =>
    match reqField parseStr (jlookup fields "timeframe") with
    | none => none
    | some timeframe =>
      match optField parseNum (jlookup fields "from") with
      | none => none
      | some fromT =>
        match optField parseNum (jlookup fields "to") with
        | none => none
        | some toT => some (.loadCandles symbol timeframe fromT toT)

/-- The `ADD_INDICATOR` variant schema. -/
def tagAddIndicator (fields : List (String × JsonVal)) : Option ChartAction :=
  match reqField parseIndicatorType (jlookup fields "indicator") with
  | none => none
  | some ind =>
    match optField parseParams (jlookup fields "params") with
    | none => none
    | some params => some (.addIndicator ind params)

/-- The `UPDATE_INDICATOR_PARAMS` variant schema. -/
def tagUpdateParams (fields : List (String × JsonVal)) : Option ChartAction :=
  match reqField parseIndicatorType (jlookup fields "indicator") with
  | none => none
  | some ind =>
    match reqField parseParams (jlookup fields "params") with
    | none => none
    | some params => some (.updateIndicatorParams ind params)

/-- The `HIGHLIGHT_POINTS` variant schema. -/
def tagHighlightPoints (fields : List (String × JsonVal)) : Option ChartAction :=
  (reqField parsePoints (jlookup fields "points")).map .highlightPoints

/-- The `HIGHLIGHT_REGION` variant schema. -/
def tagHighlightRegion (fields : List (String × JsonVal)) : Option ChartAction :=
  (reqField parseRegion (jlookup fields "region")).map .highlightRegion

/-- The `ADD_ANNOTATION` variant schema. -/
def tagAddNote (fields : List (String × JsonVal)) : Option ChartAction :=
  (reqField parseNote (jlookup fields "annotation")).map .addNote

/-- The `FOCUS_RANGE` variant schema. -/
def tagFocusRange (fields : List (String × JsonVal)) : Option ChartAction :=
  (reqField parseRange (jlookup fields "range")).map .focusRange

/-- The per-tag dispatch of the discriminated union over the 11 `type`
tags as declared in the source schema; any other tag is rejected. -/
def parseTagged (t : String) (fields : List (String × JsonVal)) : Option ChartAction :=
  if t = "SET_SYMBOL" then tagSetSymbol fields
  else if t = "SET_TIMEFRAME" then tagSetTimeframe fields
  else if t = "LOAD_CANDLES" then tagLoadCandles fields
  else if t = "ADD_INDICATOR" then tagAddIndicator fields
  else if t = "UPDATE_INDICATOR_PARAMS" then tagUpdateParams fields
  else if t = "HIGHLIGHT_POINTS" then tagHighlightPoints fields
  else if t = "HIGHLIGHT_REGION" then tagHighlightRegion fields
  else if t = "ADD_ANNOTATION" then tagAddNote fields
  else if t = "FOCUS_RANGE" then tagFocusRange fields
  else if t = "CLEAR_HIGHLIGHTS" then some .clearHighlights
  else if t = "CLEAR_INDICATORS" then some .clearIndicators
  else none

/-- `ChartActionSchema.parse` — the discriminated union over the `type`
tag (zod combinator semantics modelled from the spec; unknown extra fields
are ignored; non-objects and absent or non-string tags are rejected). -/
def parseChartAction : JsonVal → Option ChartAction
  | .obj fields =>
    match jlookup fields "type" with
    | some (.str t) => parseTagged t fields
    | _ => none
  | _ => none

/-- The 11 closed command tags. -/
def chartActionTags : List String :=
  ["SET_SYMBOL", "SET_TIMEFRAME", "LOAD_CANDLES", "ADD_INDICATOR",
   "UPDATE_INDICATOR_PARAMS", "HIGHLIGHT_POINTS", "HIGHLIGHT_REGION",
   "ADD_ANNOTATION", "FOCUS_RANGE", "CLEAR_HIGHLIGHTS", "CLEAR_INDICATORS"]

/-- Claim-side: the value is a finite number. -/
def FiniteNum (v : JsonVal) : Prop := ∃ q, v = .num (.fin q)

/-- Claim-side: the value is a string. -/
def IsStr (v : JsonVal) : Prop := ∃ s, v = .str s

/-- Claim-side: the value is a string within a closed set. -/
def StrIn (S : List String) (v : JsonVal) : Prop := ∃ s, v = .str s ∧ s ∈ S

/-- Claim-side: a required field is present and conforming. -/
def ReqFieldOK (P : JsonVal → Prop) (fields : List (String × JsonVal)) (k : String) : Prop :=
  ∃ w, jlookup fields k = some w ∧ P w

/-- Claim-side: an optional field conforms whenever present. -/
def OptFieldOK (P : JsonVal → Prop) (fields : List (String × JsonVal)) (k : String) : Prop :=
  ∀ w, jlookup fields k = some w → P w

/-- Claim-side: a `params` record — an object all of whose values are
finite numbers. -/
def ParamsOK (v : JsonVal) : Prop :=
  ∃ fields, v = .obj fields ∧ ∀ kv ∈ fields, FiniteNum kv.2

/-- Claim-side: a conforming highlight point. -/
def PointOK (v : JsonVal) : Prop :=
  ∃ fields, v = .obj fields ∧ ReqFieldOK FiniteNum fields "time" ∧
    OptFieldOK FiniteNum fields "price" ∧
    OptFieldOK (StrIn ["price", "indicator"]) fields "pane" ∧
    OptFieldOK IsStr fields "label"

/-- Claim-side: a conforming `points` array. -/
def PointsOK (v : JsonVal) : Prop :=
  ∃ items, v = .arr items ∧ ∀ x ∈ items, PointOK x

/-- Claim-side: a conforming `region` object. -/
def RegionOK (v : JsonVal) : Prop :=
  ∃ fields, v = .obj fields ∧ ReqFieldOK FiniteNum fields "fromTime" ∧
    ReqFieldOK FiniteNum fields "toTime" ∧
    OptFieldOK (StrIn ["price", "indicator"]) fields "pane" ∧
    OptFieldOK IsStr fields "label"

/-- Claim-side: a conforming `annotation` object. -/
def NoteOK (v : JsonVal) : Prop :=
  ∃ fields, v = .obj fields ∧ ReqFieldOK FiniteNum fields "time" ∧
    ReqFieldOK IsStr fields "text" ∧
    OptFieldOK FiniteNum fields "price" ∧
    OptFieldOK (StrIn ["price", "indicator"]) fields "pane"

/-- Claim-side: a conforming `range` object. -/
def RangeOK (v : JsonVal) : Prop :=
  ∃ fields, v = .obj fields ∧ ReqFieldOK FiniteNum fields "fromTime" ∧
    ReqFieldOK FiniteNum fields "toTime"

/-- Claim-side: the per-tag required/optional field conditions of §6. -/
def fieldsOKForTag (t : String) (fields : List (String × JsonVal)) : Prop :=
  if t = "SET_SYMBOL" then ReqFieldOK IsStr fields "symbol"
  else if t = "SET_TIMEFRAME" then ReqFieldOK (StrIn ["1h", "4h", "1d"]) fields "timeframe"
  else if t = "LOAD_CANDLES" then
    ReqFieldOK IsStr fields "symbol" ∧ ReqFieldOK IsStr fields "timeframe" ∧
      OptFieldOK FiniteNum fields "from" ∧ OptFieldOK FiniteNum fields "to"
  else if t = "ADD_INDICATOR" then
    ReqFieldOK (StrIn ["MACD", "RSI", "EMA"]) fields "indicator" ∧
      OptFieldOK ParamsOK fields "params"
  else if t = "UPDATE_INDICATOR_PARAMS" then
    ReqFieldOK (StrIn ["MACD", "RSI", "EMA"]) fields "indicator" ∧
      ReqFieldOK ParamsOK fields "params"
  else if t = "HIGHLIGHT_POINTS" then ReqFieldOK PointsOK fields "points"
  else if t = "HIGHLIGHT_REGION" then ReqFieldOK RegionOK fields "region"
  else if t = "ADD_ANNOTATION" then ReqFieldOK NoteOK fields "annotation"
  else if t = "FOCUS_RANGE" then ReqFieldOK RangeOK fields "range"
  else True

theorem parseNum_sound (v : JsonVal) (q : ℚ) (h : parseNum v = some q) : FiniteNum v := by
  cases v with
  | num n => cases n with
    | fin q' => exact ⟨q', rfl⟩
    | posInf => simp [parseNum] at h
    | negInf => simp [parseNum] at h
    | nan => simp [parseNum] at h
  | str s => simp [parseNum] at h
  | jbool b => simp [parseNum] at h
  | null => simp [parseNum] at h
  | arr l => simp [parseNum] at h
  | obj l => simp [parseNum] at h

theorem parseStr_sound (v : JsonVal) (s : String) (h : parseStr v = some s) : IsStr v := by
  cases v <;> simp [parseStr] at h
  exact ⟨_, rfl⟩

theorem parseTimeframe_sound (v : JsonVal) (t : Timeframe)
    (h : parseTimeframe v = some t) : StrIn ["1h", "4h", "1d"] v := by
  rw [parseTimeframe.eq_def] at h
  split at h
  · exact ⟨_, rfl, by simp⟩
  · exact ⟨_, rfl, by simp⟩
  · exact ⟨_, rfl, by simp⟩
  · exact absurd h (by simp)

theorem parseIndicatorType_sound (v : JsonVal) (t : IndicatorType)
    (h : parseIndicatorType v = some t) : StrIn ["MACD", "RSI", "EMA"] v := by
  rw [parseIndicatorType.eq_def] at h
  split at h
  · exact ⟨_, rfl, by simp⟩
  · exact ⟨_, rfl, by simp⟩
  · exact ⟨_, rfl, by simp⟩
  · exact absurd h (by simp)

theorem parsePane_sound (v : JsonVal) (t : PaneType)
    (h : parsePane v = some t) : StrIn ["price", "indicator"] v := by
  rw [parsePane.eq_def] at h
  split at h
  · exact ⟨_, rfl, by simp⟩
  · exact ⟨_, rfl, by simp⟩
  · exact absurd h (by simp)

theorem reqField_sound {α : Type} (f : JsonVal → Option α) (P : JsonVal → Prop)
    (hf : ∀ v x, f v = some x → P v) (o : Option JsonVal) (x : α)
    (h : reqField f o = some x) : ∃ w, o = some w ∧ P w := by
  cases o with
  | none => simp [reqField] at h
  | some w => exact ⟨w, rfl, hf w x h⟩

theorem optField_sound {α : Type} (f : JsonVal → Option α) (P : JsonVal → Prop)
    (hf : ∀ v x, f v = some x → P v) (o : Option JsonVal) (y : Option α)
    (h : optField f o = some y) : ∀ w, o = some w → P w := by
  cases o with
  | none => intro w hw; exact absurd hw (by simp)
  | some v =>
    intro w hw
    injection hw with hw
    subst hw
    rw [optField] at h
    obtain ⟨z, hz, _⟩ := Option.map_eq_some'.mp h
    exact hf _ z hz

theorem mapM_option_sound {α β : Type} (f : α → Option β) :
    ∀ (l : List α) (l' : List β), l.mapM f = some l' → ∀ x ∈ l, ∃ y, f x = some y := by
  intro l
  induction l with
  | nil => intro l' _ x hx; simp at hx
  | cons a l ih =>
    intro l' h x hx
    rw [List.mapM_cons] at h
    cases hfa : f a with
    | none => rw [hfa] at h; simp at h
    | some y =>
      rw [hfa] at h
      cases hys : l.mapM f with
      | none => rw [hys] at h; simp at h
      | some ys =>
        rcases List.mem_cons.mp hx with rfl | hx
        · exact ⟨y, hfa⟩
        · exact ih ys hys x hx

theorem parseParams_sound (v : JsonVal) (l : List (String × ℚ))
    (h : parseParams v = some l) : ParamsOK v := by
  cases v with
  | obj fields =>
    refine ⟨fields, rfl, fun kv hkv => ?_⟩
    have h' : fields.mapM (fun p => (parseNum p.2).map (fun q => (p.1, q))) = some l := by
      rw [← h]
      rfl
    obtain ⟨y, hy⟩ := mapM_option_sound
      (fun p => (parseNum p.2).map (fun q => (p.1, q))) fields l h' kv hkv
    obtain ⟨q, hq, _⟩ := Option.map_eq_some'.mp hy
    exact parseNum_sound _ _ hq
  | num n => simp [parseParams] at h
  | str s => simp [parseParams] at h
  | jbool b => simp [parseParams] at h
  | null => simp [parseParams] at h
  | arr items => simp [parseParams] at h

theorem parseHighlightPoint_sound (v : JsonVal) (p : HighlightPoint)
    (h : parseHighlightPoint v = some p) : PointOK v := by
  cases v with
  | obj fields =>
    simp only [parseHighlightPoint] at h
    split at h
    · exact absurd h (by simp)
    case h_2 time h1 =>
      split at h
      · exact absurd h (by simp)
      case h_2 price h2 =>
        split at h
        · exact absurd h (by simp)
        case h_2 pane h3 =>
          split at h
          · exact absurd h (by simp)
          case h_2 label h4 =>
            exact ⟨fields, rfl, reqField_sound parseNum FiniteNum parseNum_sound _ _ h1,
              optField_sound parseNum FiniteNum parseNum_sound _ _ h2,
              optField_sound parsePane (StrIn ["price", "indicator"]) parsePane_sound _ _ h3,
              optField_sound parseStr IsStr parseStr_sound _ _ h4⟩
  | num n => simp [parseHighlightPoint] at h
  | str s => simp [parseHighlightPoint] at h
  | jbool b => simp [parseHighlightPoint] at h
  | null => simp [parseHighlightPoint] at h
  | arr items => simp [parseHighlightPoint] at h

theorem parsePoints_sound (v : JsonVal) (l : List HighlightPoint)
    (h : parsePoints v = some l) : PointsOK v := by
  cases v with
  | arr items =>
    refine ⟨items, rfl, fun x hx => ?_⟩
    have h' : items.mapM parseHighlightPoint = some l := by
      rw [← h]
      rfl
    obtain ⟨y, hy⟩ := mapM_option_sound parseHighlightPoint items l h' x hx
    exact parseHighlightPoint_sound x y hy
  | num n => simp [parsePoints] at h
  | str s => simp [parsePoints] at h
  | jbool b => simp [parsePoints] at h
  | null => simp [parsePoints] at h
  | obj fields => simp [parsePoints] at h

theorem parseRegion_sound (v : JsonVal) (r : RegionT)
    (h : parseRegion v = some r) : RegionOK v := by
  cases v with
  | obj fields =>
    simp only [parseRegion] at h
    split at h
    · exact absurd h (by simp)
    case h_2 fromTime h1 =>
      split at h
      · exact absurd h (by simp)
      case h_2 toTime h2 =>
        split at h
        · exact absurd h (by simp)
        case h_2 pane h3 =>
          split at h
          · exact absurd h (by simp)
          case h_2 label h4 =>
            exact ⟨fields, rfl, reqField_sound parseNum FiniteNum parseNum_sound _ _ h1,
              reqField_sound parseNum FiniteNum parseNum_sound _ _ h2,
              optField_sound parsePane (StrIn ["price", "indicator"]) parsePane_sound _ _ h3,
              optField_sound parseStr IsStr parseStr_sound _ _ h4⟩
  | num n => simp [parseRegion] at h
  | str s => simp [parseRegion] at h
  | jbool b => simp [parseRegion] at h
  | null => simp [parseRegion] at h
  | arr items => simp [parseRegion] at h

theorem parseNote_sound (v : JsonVal) (nb : ChartNote)
    (h : parseNote v = some nb) : NoteOK v := by
  cases v with
  | obj fields =>
    simp only [parseNote] at h
    split at h
    · exact absurd h (by simp)
    case h_2 time h1 =>
      split at h
      · exact absurd h (by simp)
      case h_2 price h2 =>
        split at h
        · exact absurd h (by simp)
        case h_2 text h3 =>
          split at h
          · exact absurd h (by simp)
          case h_2 pane h4 =>
            exact ⟨fields, rfl, reqField_sound parseNum FiniteNum parseNum_sound _ _ h1,
              reqField_sound parseStr IsStr parseStr_sound _ _ h3,
              optField_sound parseNum FiniteNum parseNum_sound _ _ h2,
              optField_sound parsePane (StrIn ["price", "indicator"]) parsePane_sound _ _ h4⟩
  | num n => simp [parseNote] at h
  | str s => simp [parseNote] at h
  | jbool b => simp [parseNote] at h
  | null => simp [parseNote] at h
  | arr items => simp [parseNote] at h

theorem parseRange_sound (v : JsonVal) (r : RangeT)
    (h : parseRange v = some r) : RangeOK v := by
  cases v with
  | obj fields =>
    simp only [parseRange] at h
    split at h
    · exact absurd h (by simp)
    case h_2 fromTime h1 =>
      split at h
      · exact absurd h (by simp)
      case h_2 toTime h2 =>
        exact ⟨fields, rfl, reqField_sound parseNum FiniteNum parseNum_sound _ _ h1,
          reqField_sound parseNum FiniteNum parseNum_sound _ _ h2⟩
  | num n => simp [parseRange] at h
  | str s => simp [parseRange] at h
  | jbool b => simp [parseRange] at h
  | null => simp [parseRange] at h
  | arr items => simp [parseRange] at h

theorem tagSetSymbol_sound (fields : List (String × JsonVal)) (a : ChartAction)
    (h : tagSetSymbol fields = some a) : ReqFieldOK IsStr fields "symbol" := by
  obtain ⟨s, hs, _⟩ := Option.map_eq_some'.mp h
  exact reqField_sound parseStr IsStr parseStr_sound _ _ hs

theorem tagSetTimeframe_sound (fields : List (String × JsonVal)) (a : ChartAction)
    (h : tagSetTimeframe fields = some a) :
    ReqFieldOK (StrIn ["1h", "4h", "1d"]) fields "timeframe" := by
  obtain ⟨s, hs, _⟩ := Option.map_eq_some'.mp h
  exact reqField_sound parseTimeframe (StrIn ["1h", "4h", "1d"]) parseTimeframe_sound _ _ hs

theorem tagLoadCandles_sound (fields : List (String × JsonVal)) (a : ChartAction)
    (h : tagLoadCandles fields = some a) :
    ReqFieldOK IsStr fields "symbol" ∧ ReqFieldOK IsStr fields "timeframe" ∧
      OptFieldOK FiniteNum fields "from" ∧ OptFieldOK FiniteNum fields "to" := by
  simp only [tagLoadCandles] at h
  split at h
  · exact absurd h (by simp)
  case h_2 symbol hh1 =>
    split at h
    · exact absurd h (by simp)
    case h_2 timeframe hh2 =>
      split at h
      · exact absurd h (by simp)
      case h_2 fromT hh3 =>
        split at h
        · exact absurd h (by simp)
        case h_2 toT hh4 =>
          exact ⟨reqField_sound parseStr IsStr parseStr_sound _ _ hh1,
            reqField_sound parseStr IsStr parseStr_sound _ _ hh2,
            optField_sound parseNum FiniteNum parseNum_sound _ _ hh3,
            optField_sound parseNum FiniteNum parseNum_sound _ _ hh4⟩

theorem tagAddIndicator_sound (fields : List (String × JsonVal)) (a : ChartAction)
    (h : tagAddIndicator fields = some a) :
    ReqFieldOK (StrIn ["MACD", "RSI", "EMA"]) fields "indicator" ∧
      OptFieldOK ParamsOK fields "params" := by
  simp only [tagAddIndicator] at h
  split at h
  · exact absurd h (by simp)
  case h_2 ind hh1 =>
    split at h
    · exact absurd h (by simp)
    case h_2 params hh2 =>
      exact ⟨reqField_sound parseIndicatorType (StrIn ["MACD", "RSI", "EMA"])
          parseIndicatorType_sound _ _ hh1,
        optField_sound parseParams ParamsOK parseParams_sound _ _ hh2⟩

theorem tagUpdateParams_sound (fields : List (String × JsonVal)) (a : ChartAction)
    (h : tagUpdateParams fields = some a) :
    ReqFieldOK (StrIn ["MACD", "RSI", "EMA"]) fields "indicator" ∧
      ReqFieldOK ParamsOK fields "params" := by
  simp only [tagUpdateParams] at h
  split at h
  · exact absurd h (by simp)
  case h_2 ind hh1 =>
    split at h
    · exact absurd h (by simp)
    case h_2 params hh2 =>
      exact ⟨reqField_sound parseIndicatorType (StrIn ["MACD", "RSI", "EMA"])
          parseIndicatorType_sound _ _ hh1,
        reqField_sound parseParams ParamsOK parseParams_sound _ _ hh2⟩

theorem tagHighlightPoints_sound (fields : List (String × JsonVal)) (a : ChartAction)
    (h : tagHighlightPoints fields = some a) : ReqFieldOK PointsOK fields "points" := by
  obtain ⟨s, hs, _⟩ := Option.map_eq_some'.mp h
  exact reqField_sound parsePoints PointsOK parsePoints_sound _ _ hs

theorem tagHighlightRegion_sound (fields : List (String × JsonVal)) (a : ChartAction)
    (h : tagHighlightRegion fields = some a) : ReqFieldOK RegionOK fields "region" := by
  obtain ⟨s, hs, _⟩ := Option.map_eq_some'.mp h
  exact reqField_sound parseRegion RegionOK parseRegion_sound _ _ hs

theorem tagAddNote_sound (fields : List (String × JsonVal)) (a : ChartAction)
    (h : tagAddNote fields = some a) : ReqFieldOK NoteOK fields "annotation" := by
  obtain ⟨s, hs, _⟩ := Option.map_eq_some'.mp h
  exact reqField_sound parseNote NoteOK parseNote_sound _ _ hs

theorem tagFocusRange_sound (fields : List (String × JsonVal)) (a : ChartAction)
    (h : tagFocusRange fields = some a) : ReqFieldOK RangeOK fields "range" := by
  obtain ⟨s, hs, _⟩ := Option.map_eq_some'.mp h
  exact reqField_sound parseRange RangeOK parseRange_sound _ _ hs

/-- **C6**: the validator accepts a value only if it is an object whose
`type` equals one of the 11 closed tags, every required field of that tag
is present with its declared type, enumerated fields are within their
closed sets, and numeric fields are finite; an absent, non-string, or
out-of-set `type` is rejected. -/
theorem validator_spec :
    (∀ (v : JsonVal) (a : ChartAction), parseChartAction v = some a →
      ∃ fields t, v = .obj fields ∧ jlookup fields "type" = some (.str t) ∧
        t ∈ chartActionTags ∧ fieldsOKForTag t fields) ∧
    (∀ (fields : List (String × JsonVal)) (t : String),
      jlookup fields "type" = some (.str t) → t ∉ chartActionTags →
      parseChartAction (.obj fields) = none) ∧
    (∀ (fields : List (String × JsonVal)) (w : JsonVal),
      jlookup fields "type" = some w → (∀ s, w ≠ .str s) →
      parseChartAction (.obj fields) = none) ∧
    (∀ fields : List (String × JsonVal), jlookup fields "type" = none →
      parseChartAction (.obj fields) = none) ∧
    (∀ (v : JsonVal) (a : ChartAction), parseChartAction v = some a →
      ∃ fields, v = .obj fields) := by
  refine ⟨?_, ?_, ?_, ?_, ?_⟩
  · intro v a h
    cases v with
    | obj fields =>
      simp only [parseChartAction] at h
      split at h
      case h_1 t heq =>
        refine ⟨fields, t, rfl, heq, ?_⟩
        unfold parseTagged at h
        by_cases h1 : t = "SET_SYMBOL"
        · rw [if_pos h1] at h
          subst h1
          refine ⟨by simp [chartActionTags], ?_⟩
          simp only [fieldsOKForTag, String.reduceEq, reduceIte]
          exact tagSetSymbol_sound fields a h
        rw [if_neg h1] at h
        by_cases h2 : t = "SET_TIMEFRAME"
        · rw [if_pos h2] at h
          subst h2
          refine ⟨by simp [chartActionTags], ?_⟩
          simp only [fieldsOKForTag, String.reduceEq, reduceIte]
          exact tagSetTimeframe_sound fields a h
        rw [if_neg h2] at h
        by_cases h3 : t = "LOAD_CANDLES"
        · rw [if_pos h3] at h
          subst h3
          refine ⟨by simp [chartActionTags], ?_⟩
          simp only [fieldsOKForTag, String.reduceEq, reduceIte]
          exact tagLoadCandles_sound fields a h
        rw [if_neg h3] at h
        by_cases h4 : t = "ADD_INDICATOR"
        · rw [if_pos h4] at h
          subst h4
          refine ⟨by simp [chartActionTags], ?_⟩
          simp only [fieldsOKForTag, String.reduceEq, reduceIte]
          exact tagAddIndicator_sound fields a h
        rw [if_neg h4] at h
        by_cases h5 : t = "UPDATE_INDICATOR_PARAMS"
        · rw [if_pos h5] at h
          subst h5
          refine ⟨by simp [chartActionTags], ?_⟩
          simp only [fieldsOKForTag, String.reduceEq, reduceIte]
          exact tagUpdateParams_sound fields a h
        rw [if_neg h5] at h
        by_cases h6 : t = "HIGHLIGHT_POINTS"
        · rw [if_pos h6] at h
          subst h6
          refine ⟨by simp [chartActionTags], ?_⟩
          simp only [fieldsOKForTag, String.reduceEq, reduceIte]
          exact tagHighlightPoints_sound fields a h
        rw [if_neg h6] at h
        by_cases h7 : t = "HIGHLIGHT_REGION"
        · rw [if_pos h7] at h
          subst h7
          refine ⟨by simp [chartActionTags], ?_⟩
          simp only [fieldsOKForTag, String.reduceEq, reduceIte]
          exact tagHighlightRegion_sound fields a h
        rw [if_neg h7] at h
        by_cases h8 : t = "ADD_ANNOTATION"
        · rw [if_pos h8] at h
          subst h8
          refine ⟨by simp [chartActionTags], ?_⟩
          simp only [fieldsOKForTag, String.reduceEq, reduceIte]
          exact tagAddNote_sound fields a h
        rw [if_neg h8] at h
        by_cases h9 : t = "FOCUS_RANGE"
        · rw [if_pos h9] at h
          subst h9
          refine ⟨by simp [chartActionTags], ?_⟩
          simp only [fieldsOKForTag, String.reduceEq, reduceIte]
          exact tagFocusRange_sound fields a h
        rw [if_neg h9] at h
        by_cases h10 : t = "CLEAR_HIGHLIGHTS"
        · subst h10
          refine ⟨by simp [chartActionTags], ?_⟩
          simp only [fieldsOKForTag, String.reduceEq, reduceIte]
        rw [if_neg h10] at h
        by_cases h11 : t = "CLEAR_INDICATORS"
        · subst h11
          refine ⟨by simp [chartActionTags], ?_⟩
          simp only [fieldsOKForTag, String.reduceEq, reduceIte]
        rw [if_neg h11] at h
        exact absurd h (by simp)
      case h_2 => exact absurd h (by simp)
    | num n => simp [parseChartAction] at h
    | str s => simp [parseChartAction] at h
    | jbool b => simp [parseChartAction] at h
    | null => simp [parseChartAction] at h
    | arr items => simp [parseChartAction] at h
  · intro fields t hty hnot
    simp only [parseChartAction]
    rw [hty]
    show parseTagged t fields = none
    unfold parseTagged
    by_cases h1 : t = "SET_SYMBOL"
    · exact absurd (h1 ▸ (by simp [chartActionTags] : ("SET_SYMBOL" : String) ∈ chartActionTags)) hnot
    rw [if_neg h1]
    by_cases h2 : t = "SET_TIMEFRAME"
    · exact absurd (h2 ▸ (by simp [chartActionTags] : ("SET_TIMEFRAME" : String) ∈ chartActionTags)) hnot
    rw [if_neg h2]
    by_cases h3 : t = "LOAD_CANDLES"
    · exact absurd (h3 ▸ (by simp [chartActionTags] : ("LOAD_CANDLES" : String) ∈ chartActionTags)) hnot
    rw [if_neg h3]
    by_cases h4 : t = "ADD_INDICATOR"
    · exact absurd (h4 ▸ (by simp [chartActionTags] : ("ADD_INDICATOR" : String) ∈ chartActionTags)) hnot
    rw [if_neg h4]
    by_cases h5 : t = "UPDATE_INDICATOR_PARAMS"
    · exact absurd (h5 ▸ (by simp [chartActionTags] : ("UPDATE_INDICATOR_PARAMS" : String) ∈ chartActionTags)) hnot
    rw [if_neg h5]
    by_cases h6 : t = "HIGHLIGHT_POINTS"
    · exact absurd (h6 ▸ (by simp [chartActionTags] : ("HIGHLIGHT_POINTS" : String) ∈ chartActionTags)) hnot
    rw [if_neg h6]
    by_cases h7 : t = "HIGHLIGHT_REGION"
    · exact absurd (h7 ▸ (by simp [chartActionTags] : ("HIGHLIGHT_REGION" : String) ∈ chartActionTags)) hnot
    rw [if_neg h7]
    by_cases h8 : t = "ADD_ANNOTATION"
    · exact absurd (h8 ▸ (by simp [chartActionTags] : ("ADD_ANNOTATION" : String) ∈ chartActionTags)) hnot
    rw [if_neg h8]
    by_cases h9 : t = "FOCUS_RANGE"
    · exact absurd (h9 ▸ (by simp [chartActionTags] : ("FOCUS_RANGE" : String) ∈ chartActionTags)) hnot
    rw [if_neg h9]
    by_cases h10 : t = "CLEAR_HIGHLIGHTS"
    · exact absurd (h10 ▸ (by simp [chartActionTags] : ("CLEAR_HIGHLIGHTS" : String) ∈ chartActionTags)) hnot
    rw [if_neg h10]
    by_cases h11 : t = "CLEAR_INDICATORS"
    · exact absurd (h11 ▸ (by simp [chartActionTags] : ("CLEAR_INDICATORS" : String) ∈ chartActionTags)) hnot
    rw [if_neg h11]
  · intro fields w hty hw
    simp only [parseChartAction]
    rw [hty]
    cases w with
    | str s => exact absurd rfl (hw s)
    | num n => rfl
    | jbool b => rfl
    | null => rfl
    | arr items => rfl
    | obj l => rfl
  · intro fields hty
    simp only [parseChartAction]
    rw [hty]
  · intro v a h
    cases v with
    | obj fields => exact ⟨fields, rfl⟩
    | num n => simp [parseChartAction] at h
    | str s => simp [parseChartAction] at h
    | jbool b => simp [parseChartAction] at h
    | null => simp [parseChartAction] at h
    | arr items => simp [parseChartAction] at h

/-- Witness for `validator_spec`: an unknown tag is rejected. -/
theorem validator_spec_witness :
    parseChartAction (.obj [("type", .str "DROP_TABLES")]) = none :=
  validator_spec.2.1 [("type", .str "DROP_TABLES")] "DROP_TABLES" rfl
    (by simp [chartActionTags])

/-- The validation loop of `getChatCompletion`: each raw action is parsed;
valid ones are collected in order, invalid ones are skipped (the source
logs a warning and continues). -/
def validateActions : List JsonVal → List ChartAction
  | [] => []
  | v :: rest =>
    match parseChartAction v with
    | some a => a :: validateActions rest
    | none => validateActions rest

/-- The validate-then-apply pipeline: the validated commands from the tool
call are handed to `executeActions`. -/
def runBatch (fetch : FetchOracle) (state : ChartContextState) (raw : List JsonVal) :
    ChartContextState :=
  executeActions fetch state (validateActions raw)

/-- **C7**: validation keeps exactly the valid commands in their original
relative order (`filterMap`), the number kept is `n - k` where `k` counts
the rejected ones, and a rejected command anywhere in a batch is skipped —
the pipeline's resulting state is the one obtained from the batch with the
rejected command removed, with no error raised (the pipeline is a total
function). -/
theorem batch_spec (fetch : FetchOracle) (s : ChartContextState) :
    (∀ raw, validateActions raw = raw.filterMap parseChartAction) ∧
    (∀ raw : List JsonVal, (validateActions raw).length +
      raw.countP (fun v => (parseChartAction v).isNone) = raw.length) ∧
    (∀ (pre post : List JsonVal) (bad : JsonVal), parseChartAction bad = none →
      runBatch fetch s (pre ++ bad :: post) = runBatch fetch s (pre ++ post)) := by
  have hfm : ∀ raw, validateActions raw = raw.filterMap parseChartAction := by
    intro raw
    induction raw with
    | nil => rfl
    | cons v rest ih =>
      rw [validateActions, List.filterMap_cons]
      cases h : parseChartAction v with
      | none => exact ih
      | some a => rw [ih]
  refine ⟨hfm, ?_, ?_⟩
  · intro raw
    rw [hfm]
    induction raw with
    | nil => rfl
    | cons v rest ih =>
      rw [List.filterMap_cons, List.countP_cons]
      cases h : parseChartAction v with
      | none => simp only [h, Option.isNone_none]; simp; omega
      | some a => simp only [h, Option.isNone_some, List.length_cons]; simp; omega
  · intro pre post bad hbad
    rw [runBatch, runBatch, hfm, hfm, List.filterMap_append, List.filterMap_append,
      List.filterMap_cons, hbad]

/-- Witness for `batch_spec`: a batch consisting of one invalid command
(`null`) produces the same state as the empty batch. -/
theorem batch_spec_witness :
    runBatch (fun _ _ => none) initialState [JsonVal.null] =
      runBatch (fun _ _ => none) initialState [] :=
  (batch_spec (fun _ _ => none) initialState).2.2 [] [] JsonVal.null rfl

theorem countP_le_of_imp {α : Type} (p q : α → Bool) :
    ∀ l : List α, (∀ x ∈ l, p x = true → q x = true) →
      l.countP p ≤ l.countP q
  | [], _ => le_refl _
  | x :: l, h => by
    rw [List.countP_cons, List.countP_cons]
    have hrec := countP_le_of_imp p q l (fun y hy => h y (List.mem_cons_of_mem _ hy))
    by_cases hp : p x = true
    · rw [if_pos hp, if_pos (h x (List.mem_cons_self x l) hp)]
      omega
    · rw [if_neg hp]
      split <;> omega

/-- **C8**: `ADD_INDICATOR` upserts the config keyed by the indicator name
(replace when present, append when absent), preserves the at-most-one-
config-per-name invariant, and applies the type-specific defaults when
`params` is absent; applying it twice for MACD (second time with explicit
params) leaves exactly one MACD config carrying the second call's params. -/
theorem addIndicator_spec (fetch : FetchOracle) (s : ChartContextState)
    (ind : IndicatorType) (params? : Option (List (String × ℚ))) :
    ((∃ c ∈ s.indicators, c.name = ind) →
      (executeAction fetch s (.addIndicator ind params?)).indicators =
        s.indicators.map (fun c => if c.name = ind then
          { name := ind, params := params?.getD (defaultParams ind), visible := true }
          else c)) ∧
    ((∀ c ∈ s.indicators, c.name ≠ ind) →
      (executeAction fetch s (.addIndicator ind params?)).indicators =
        s.indicators ++
          [{ name := ind, params := params?.getD (defaultParams ind), visible := true }]) ∧
    ((∀ t, s.indicators.countP (fun c => c.name == t) ≤ 1) →
      ∀ t, (executeAction fetch s (.addIndicator ind params?)).indicators.countP
        (fun c => c.name == t) ≤ 1) ∧
    (params? = none →
      ∀ c ∈ (executeAction fetch s (.addIndicator ind params?)).indicators,
        c.name = ind → c.params = defaultParams ind) ∧
    ((executeAction fetch initialState (.addIndicator .MACD none)).indicators =
      [{ name := .MACD, params := [("fast", 12), ("slow", 26), ("signal", 9)],
         visible := true }]) ∧
    ((executeActions fetch initialState
        [.addIndicator .MACD none,
         .addIndicator .MACD (some [("fast", 5), ("slow", 13), ("signal", 4)])]).indicators =
      [{ name := .MACD, params := [("fast", 5), ("slow", 13), ("signal", 4)],
         visible := true }]) := by
  have hexec : executeAction fetch s (.addIndicator ind params?) =
      chartReducer s (.addIndicator
        { name := ind, params := params?.getD (defaultParams ind), visible := true }) := rfl
  have hany_pos : (∃ c ∈ s.indicators, c.name = ind) →
      (s.indicators.any fun i => i.name == ind) = true := by
    rintro ⟨c, hc, hname⟩
    exact List.any_eq_true.mpr ⟨c, hc, by simp [hname]⟩
  have hany_neg : (∀ c ∈ s.indicators, c.name ≠ ind) →
      (s.indicators.any fun i => i.name == ind) = false := by
    intro hno
    rw [List.any_eq_false]
    intro c hc
    simp [hno c hc]
  refine ⟨?_, ?_, ?_, ?_, ?_, ?_⟩
  · intro hex
    rw [hexec, chartReducer, if_pos (hany_pos hex)]
  · intro hno
    rw [hexec, chartReducer, if_neg (by rw [hany_neg hno]; simp)]
  · intro hinv t
    rw [hexec, chartReducer]
    by_cases hc : (s.indicators.any fun i => i.name == ind) = true
    · rw [if_pos hc, List.countP_map]
      refine le_trans (countP_le_of_imp _ (fun c => c.name == t) s.indicators ?_) (hinv t)
      intro c _ hpc
      simp only [Function.comp] at hpc ⊢
      by_cases hcn : c.name = ind
      · rw [if_pos hcn] at hpc
        simp at hpc
        simp [hcn, hpc]
      · rw [if_neg hcn] at hpc
        exact hpc
    · rw [if_neg hc, List.countP_append, List.countP_cons, List.countP_nil]
      have hno : ∀ c ∈ s.indicators, (c.name == ind) = false := by
        intro c hcmem
        have hf := Bool.eq_false_iff.mpr hc
        rw [List.any_eq_false] at hf
        exact Bool.eq_false_iff.mpr (hf c hcmem)
      by_cases ht : (ind == t) = true
      · have ht' : ind = t := by simpa using ht
        subst ht'
        have hzero : s.indicators.countP (fun c => c.name == ind) = 0 := by
          rw [List.countP_eq_zero]
          intro c hcmem
          simp [hno c hcmem]
        rw [hzero]
        simp
      · rw [if_neg ht]
        have := hinv t
        omega
  · intro hnone c hc hcn
    subst hnone
    rw [hexec, chartReducer] at hc
    by_cases hany : (s.indicators.any fun i => i.name == ind) = true
    · rw [if_pos hany] at hc
      obtain ⟨c', hc', hfc⟩ := List.mem_map.mp hc
      by_cases h' : c'.name = ind
      · rw [if_pos h'] at hfc
        rw [← hfc]
        rfl
      · rw [if_neg h'] at hfc
        subst hfc
        exact absurd hcn h'
    · rw [if_neg hany] at hc
      rcases List.mem_append.mp hc with h' | h'
      · have hf := Bool.eq_false_iff.mpr hany
        rw [List.any_eq_false] at hf
        have := hf c h'
        simp [hcn] at this
      · simp at h'
        rw [h']
  · rfl
  · rfl

/-- Witness for `addIndicator_spec`: adding RSI to the initial (empty)
state appends one config with the default params. -/
theorem addIndicator_spec_witness :
    (executeAction (fun _ _ => none) initialState (.addIndicator .RSI none)).indicators =
      [{ name := .RSI, params := [("period", 14)], visible := true }] := by
  have h := (addIndicator_spec (fun _ _ => none) initialState .RSI none).2.1
    (by intro c hc; simp [initialState] at hc)
  simpa [initialState, defaultParams] using h

/-- Which commands trigger the asynchronous candle reload (spec §5's
suspension points). -/
def isLoadingAction : ChartAction → Bool
  | .setSymbol _ => true
  | .setTimeframe _ => true
  | .loadCandles _ _ _ _ => true
  | _ => false

/-- **C9**: when the candle reload fails, `SET_SYMBOL`/`SET_TIMEFRAME`/
`LOAD_CANDLES` leave the previously loaded candles (and all other state)
untouched except for the commanded symbol/timeframe change, the loading
flag is cleared (surfaced to the rendering collaborator), no exception
escapes (the engine is a total function), and the remaining batch executes
against the stale candles. -/
theorem reloadFailure_spec (fetch : FetchOracle) (hfail : ∀ a b, fetch a b = none)
    (s : ChartContextState) (sym : String) (tf : Timeframe)
    (rawSym rawTf : String) (fromT toT : Option ℚ) (rest : List ChartAction) :
    executeAction fetch s (.setSymbol sym) =
      { s with symbol := sym, isLoading := false } ∧
    executeAction fetch s (.setTimeframe tf) =
      { s with timeframe := tf, isLoading := false } ∧
    executeAction fetch s (.loadCandles rawSym rawTf fromT toT) =
      { s with isLoading := false } ∧
    executeActions fetch s (.setSymbol sym :: rest) =
      executeActions fetch { s with symbol := sym, isLoading := false } rest := by
  have hload : ∀ (s' : ChartContextState) a b,
      loadCandles fetch s' a b = { s' with isLoading := false } := by
    intro s' a b
    rw [loadCandles]
    simp only [hfail]
    rfl
  refine ⟨?_, ?_, ?_, ?_⟩
  · rw [executeAction, hload]
    simp [chartReducer]
  · rw [executeAction, hload]
    simp [chartReducer]
  · rw [executeAction, hload]
  · rw [executeActions, executeAction, hload]
    simp [chartReducer]

/-- Witness for `reloadFailure_spec` with an always-failing fetch. -/
theorem reloadFailure_spec_witness :
    executeAction (fun _ _ => none) initialState (.setSymbol "ETHUSDT") =
      { initialState with symbol := "ETHUSDT", isLoading := false } :=
  (reloadFailure_spec (fun _ _ => none) (fun _ _ => rfl) initialState "ETHUSDT" .h1
    "" "" none none []).1

/-- **C10**: every command other than `SET_SYMBOL`/`SET_TIMEFRAME`/
`LOAD_CANDLES` leaves symbol, timeframe, candles and the loading flag
unchanged — only indicators, highlights, annotations and the visible range
can be modified. -/
theorem frame_spec (fetch : FetchOracle) (s : ChartContextState) (a : ChartAction)
    (h : isLoadingAction a = false) :
    (executeAction fetch s a).symbol = s.symbol ∧
    (executeAction fetch s a).timeframe = s.timeframe ∧
    (executeAction fetch s a).candles = s.candles ∧
    (executeAction fetch s a).isLoading = s.isLoading := by
  cases a with
  | setSymbol symbol => simp [isLoadingAction] at h
  | setTimeframe timeframe => simp [isLoadingAction] at h
  | loadCandles symbol timeframe fromT toT => simp [isLoadingAction] at h
  | addIndicator ind params? =>
    refine ⟨?_, ?_, ?_, ?_⟩ <;> (rw [executeAction, chartReducer]; split <;> rfl)
  | updateIndicatorParams ind params => exact ⟨rfl, rfl, rfl, rfl⟩
  | highlightPoints points => exact ⟨rfl, rfl, rfl, rfl⟩
  | highlightRegion region => exact ⟨rfl, rfl, rfl, rfl⟩
  | addNote note => exact ⟨rfl, rfl, rfl, rfl⟩
  | focusRange range => exact ⟨rfl, rfl, rfl, rfl⟩
  | clearHighlights => exact ⟨rfl, rfl, rfl, rfl⟩
  | clearIndicators => exact ⟨rfl, rfl, rfl, rfl⟩

/-- Witness for `frame_spec` at `CLEAR_HIGHLIGHTS` on the initial state. -/
theorem frame_spec_witness :
    (executeAction (fun _ _ => none) initialState .clearHighlights).symbol =
        initialState.symbol ∧
      (executeAction (fun _ _ => none) initialState .clearHighlights).timeframe =
        initialState.timeframe ∧
      (executeAction (fun _ _ => none) initialState .clearHighlights).candles =
        initialState.candles ∧
      (executeAction (fun _ _ => none) initialState .clearHighlights).isLoading =
        initialState.isLoading :=
  frame_spec (fun _ _ => none) initialState .clearHighlights rfl

end TradeCraft
